import Mathlib

/-!
Shallow embedding of the github-wiki-sync-actions synchronization core:
the error classifier and circuit breaker (`src/error-handler.ts`), the
transaction manager and partial failure handler (`src/transaction-manager.ts`
/ `dist/transaction-manager.js`), the file-name conversions
(`dist/file-handler.js`) and the sync engine (`src/sync-engine.ts`).

Effectful collaborators (the GitHub remote, the local filesystem, the clock)
are passed in explicitly as data; `async` functions that can throw are
embedded as functions into `Except`/`Option`.
-/

namespace WikiSync

/-! ## Error values

JavaScript lets any value be thrown.  The classifier in `error-handler.ts`
only ever inspects: whether the value is a string, whether it is an `Error`
instance (then its `message`), whether it is an object carrying `status`,
`code` or `message` fields, and its `String(...)` rendering.  `ErrVal`
records exactly those observations. -/

inductive ErrVal where
  /-- a thrown string -/
  | vstr (s : String)
  /-- a thrown object: whether it is an `Error` instance, its optional
  `status` and `code` fields, its optional `message` field, and its
  `String(...)` rendering -/
  | vobj (isErr : Bool) (status : Option Int) (code : Option String)
      (message : Option String) (strRepr : String)
  /-- any other primitive, identified by its `String(...)` rendering -/
  | vother (strRepr : String)
  deriving DecidableEq, Repr

/-- a plain `new Error(msg)` -/
def ErrVal.mkError (msg : String) : ErrVal :=
  .vobj true none none (some msg) msg

inductive ErrorType where
  | RATE_LIMIT | AUTH_ERROR | FILE_NOT_FOUND | NETWORK_ERROR
  | CONFLICT | VALIDATION_ERROR | UNKNOWN
  deriving DecidableEq, Repr

structure ErrorContext where
  type : ErrorType
  message : String
  retryable : Bool
  fatal : Bool
  deriving DecidableEq, Repr

/-- `needle.isPrefixOf`-based substring test (models `RegExp.test` for the
literal-alternative patterns used in `ERROR_PATTERNS`). -/
def containsSub : List Char → List Char → Bool
  | needle, [] => needle.isEmpty
  | needle, c :: t => needle.isPrefixOf (c :: t) || containsSub needle t

/-- case-insensitive substring test: the `/.../i` regexps of
`ErrorHandler.ERROR_PATTERNS` are all alternations of literal words. -/
def matchCI (pat : String) (msg : String) : Bool :=
  containsSub (pat.data.map Char.toLower) (msg.data.map Char.toLower)

namespace ErrorHandler

/-- `ErrorHandler.getErrorMessage`: `Error` instances yield their `message`
(`""` when unset), strings yield themselves, other objects with a `message`
field yield `String(message)`, everything else its `String(...)` rendering. -/
def getErrorMessage : ErrVal → String
  | .vstr s => s
  | .vobj true _ _ m _ => m.getD ""
  | .vobj false _ _ (some m) _ => m
  | .vobj false _ _ none r => r
  | .vother r => r

def statusOf : ErrVal → Option Int
  | .vobj _ st _ _ _ => st
  | _ => none

def codeOf : ErrVal → Option String
  | .vobj _ _ c _ _ => c
  | _ => none

/-- the ordered message patterns of `ErrorHandler.ERROR_PATTERNS`
(first match wins, as `Map` iteration preserves insertion order). -/
def patternType (msg : String) : ErrorType :=
  if matchCI "rate limit" msg then .RATE_LIMIT
  else if matchCI "403" msg || matchCI "forbidden" msg then .RATE_LIMIT
  else if matchCI "401" msg || matchCI "unauthorized" msg then .AUTH_ERROR
  else if matchCI "enoent" msg || matchCI "not found" msg then .FILE_NOT_FOUND
  else if matchCI "network" msg || matchCI "timeout" msg
      || matchCI "econnrefused" msg then .NETWORK_ERROR
  else if matchCI "conflict" msg then .CONFLICT
  else .UNKNOWN

/-- `ErrorHandler.detectErrorType`: HTTP-like status first, then system
error code, then the ordered message patterns, else `UNKNOWN`. -/
def detectErrorType (e : ErrVal) (message : String) : ErrorType :=
  let byPattern := patternType message
  let byCode :=
    match codeOf e with
    | some c =>
        if c = "ENOENT" then .FILE_NOT_FOUND
        else if c = "ECONNREFUSED" then .NETWORK_ERROR
        else byPattern
    | none => byPattern
  match statusOf e with
  | some st =>
      if st = 403 then .RATE_LIMIT
      else if st = 401 then .AUTH_ERROR
      else if st = 404 then .FILE_NOT_FOUND
      else byCode
  | none => byCode

/-- `ErrorHandler.getRecoveryStrategy`: the fixed `(retryable, fatal)` table. -/
def getRecoveryStrategy : ErrorType → Bool × Bool
  | .RATE_LIMIT => (true, false)
  | .AUTH_ERROR => (false, true)
  | .FILE_NOT_FOUND => (false, false)
  | .NETWORK_ERROR => (true, false)
  | .CONFLICT => (false, false)
  | .VALIDATION_ERROR => (false, true)
  | .UNKNOWN => (true, false)

/-- `ErrorHandler.classify`. -/
def classify (e : ErrVal) : ErrorContext :=
  let message := getErrorMessage e
  let type := detectErrorType e message
  let strat := getRecoveryStrategy type
  { type := type, message := message, retryable := strat.1, fatal := strat.2 }

end ErrorHandler

/-! ## Circuit breaker (`error-handler.ts`, `CircuitBreaker`)

The clock (`Date.now()`) is passed explicitly as `now`; the outcome of the
wrapped operation is passed as a `Bool` (`true` = the promise resolved). -/

inductive CBState where
  | CLOSED | OPEN | HALF_OPEN
  deriving DecidableEq, Repr

structure CircuitBreaker where
  failureCount : Nat
  lastFailureTime : Nat
  state : CBState
  deriving DecidableEq, Repr

def CircuitBreaker.init : CircuitBreaker :=
  { failureCount := 0, lastFailureTime := 0, state := .CLOSED }

/-- outcome of one `execute` call -/
inductive CBOutcome where
  /-- the dedicated "Circuit breaker is OPEN" error; operation not invoked -/
  | breakerOpen
  /-- the operation was invoked and succeeded -/
  | opOk
  /-- the operation was invoked, failed, and the error was re-raised -/
  | opErr
  deriving DecidableEq, Repr

/-- `CircuitBreaker.recordFailure` (private helper). -/
def CircuitBreaker.recordFailure (threshold now : Nat) (cb : CircuitBreaker) :
    CircuitBreaker :=
  let c := cb.failureCount + 1
  { failureCount := c
    lastFailureTime := now
    state := if c ≥ threshold then .OPEN else cb.state }

/-- `CircuitBreaker.reset` (private helper): clears the count and closes;
`lastFailureTime` is left untouched. -/
def CircuitBreaker.reset (cb : CircuitBreaker) : CircuitBreaker :=
  { cb with failureCount := 0, state := .CLOSED }

/-- `CircuitBreaker.execute`: fail fast while `OPEN` within `timeout` of the
last failure, otherwise run the operation (transitioning to `HALF_OPEN`
first when `OPEN` past the timeout); a success seen in `HALF_OPEN` resets,
a failure is recorded and re-raised. -/
def CircuitBreaker.execute (threshold timeout now : Nat) (opSucceeds : Bool)
    (cb : CircuitBreaker) : CBOutcome × CircuitBreaker :=
  let run (cb : CircuitBreaker) : CBOutcome × CircuitBreaker :=
    if opSucceeds then
      (CBOutcome.opOk, if cb.state = .HALF_OPEN then cb.reset else cb)
    else
      (CBOutcome.opErr, cb.recordFailure threshold now)
  if cb.state = .OPEN then
    if now - cb.lastFailureTime > timeout then
      run { cb with state := .HALF_OPEN }
    else
      (CBOutcome.breakerOpen, cb)
  else
    run cb

/-- folds a sequence of `(now, opSucceeds)` calls through the breaker. -/
def CircuitBreaker.runCalls (threshold timeout : Nat)
    (calls : List (Nat × Bool)) (cb : CircuitBreaker) :
    List CBOutcome × CircuitBreaker :=
  match calls with
  | [] => ([], cb)
  | (now, ok) :: rest =>
      let (o, cb') := cb.execute threshold timeout now ok
      let (os, cb'') := CircuitBreaker.runCalls threshold timeout rest cb'
      (o :: os, cb'')

/-! ## Partial failure handler (`transaction-manager`, `PartialFailureHandler`) -/

inductive ChangeType where
  | create | update | delete
  deriving DecidableEq, Repr

/-- `SyncOperation` restricted to the fields the handler receives. -/
structure OpRec where
  type : ChangeType
  path : String
  content : Option String
  deriving DecidableEq, Repr

structure PartialFailureHandler where
  continueOnError : Bool
  maxFailureThreshold : Nat
  successfulOperations : List OpRec
  failedOperations : List (OpRec × ErrVal)
  deriving DecidableEq, Repr

def PartialFailureHandler.mk' (continueOnError : Bool := true)
    (maxFailureThreshold : Nat := 10) : PartialFailureHandler :=
  { continueOnError := continueOnError
    maxFailureThreshold := maxFailureThreshold
    successfulOperations := []
    failedOperations := [] }

def PartialFailureHandler.recordSuccess (op : OpRec)
    (h : PartialFailureHandler) : PartialFailureHandler :=
  { h with successfulOperations := h.successfulOperations ++ [op] }

/-- `recordFailure`: appends, then throws "Maximum failure threshold …
exceeded" when the list length is strictly greater than the threshold.
The append happens before the throw, so the grown state is returned in
both cases. -/
def PartialFailureHandler.recordFailure (op : OpRec) (e : ErrVal)
    (h : PartialFailureHandler) : Except String PartialFailureHandler ×
      PartialFailureHandler :=
  let h' := { h with failedOperations := h.failedOperations ++ [(op, e)] }
  if h'.failedOperations.length > h.maxFailureThreshold then
    (Except.error
      s!"Maximum failure threshold ({h.maxFailureThreshold}) exceeded. Aborting operation.",
     h')
  else
    (Except.ok h', h')

def PartialFailureHandler.shouldContinue (h : PartialFailureHandler) : Bool :=
  h.continueOnError && h.failedOperations.length ≤ h.maxFailureThreshold

/-- records `n` failures in sequence (of the same op/error, which the
handler never inspects), returning the per-call results and final state. -/
def PartialFailureHandler.recordN (op : OpRec) (e : ErrVal) :
    Nat → PartialFailureHandler →
      List (Except String PartialFailureHandler) × PartialFailureHandler
  | 0, h => ([], h)
  | n + 1, h =>
      let (r, h') := h.recordFailure op e
      let (rs, h'') := PartialFailureHandler.recordN op e n h'
      (r :: rs, h'')

/-! ## Path and name conversions (`file-handler`)

Modelled at the `List Char` level so the string rewrites of
`convertPathToWikiName` / `convertWikiNameToPath` become structural
recursion; `String` wrappers re-expose them at the source's type. -/

/-- is `l` of the form `_* ++ ".md"`, matching case-insensitively
(the regex `/\.md$/i`)?  Tested on the last three characters. -/
def hasMdSuffixCI (l : List Char) : Bool :=
  match l.reverse.take 3 with
  | [d, m, dot] =>
      (d = 'd' || d = 'D') && (m = 'm' || m = 'M') && dot = '.'
  | _ => false

/-- `wikiName.replace(/\.md$/i, '')` -/
def stripMdSuffix (l : List Char) : List Char :=
  if hasMdSuffixCI l then l.take (l.length - 3) else l

/-- `replace(/[/\\]/g, '-')` -/
def sepToDash (l : List Char) : List Char :=
  l.map fun c => if c = '/' ∨ c = '\\' then '-' else c

/-- collapses every run of dashes to a single dash (the global
dash-run replacement in `convertPathToWikiName`) -/
def collapseDashes : List Char → List Char
  | [] => []
  | [c] => [c]
  | a :: b :: t =>
      if a = '-' ∧ b = '-' then collapseDashes (b :: t)
      else a :: collapseDashes (b :: t)

/-- `replace(/^-+|-+$/g, '')` -/
def trimDashes (l : List Char) : List Char :=
  ((l.dropWhile (· = '-')).reverse.dropWhile (· = '-')).reverse

/-- `FileHandler.convertPathToWikiName` on character lists. -/
def convertPathToWikiNameL (l : List Char) : List Char :=
  trimDashes (collapseDashes (sepToDash (stripMdSuffix l)))

def convertPathToWikiName (s : String) : String :=
  ⟨convertPathToWikiNameL s.data⟩

/-- `String.prototype.split(sep)` for a single-character separator -/
def splitOnChar (sep : Char) : List Char → List (List Char)
  | [] => [[]]
  | c :: rest =>
      if c = sep then [] :: splitOnChar sep rest
      else
        match splitOnChar sep rest with
        | h :: t => (c :: h) :: t
        | [] => [[c]]

/-- `String.prototype.split('-')` -/
def splitDash : List Char → List (List Char) :=
  splitOnChar '-'

/-- does `l` end in the literal characters `".md"` (case-sensitively,
`String.prototype.endsWith('.md')`)?  Tested on the last three characters. -/
def hasMdSuffixCS (l : List Char) : Bool :=
  l.reverse.take 3 = ['d', 'm', '.']

/-- `String.prototype.split('/')` (used to model `path.normalize`). -/
def splitSlash : List Char → List (List Char) :=
  splitOnChar '/'

/-- the `.`/`..` resolution step of Node's `path.normalize`, on the
slash-free segments of a path: `.` and empty segments are dropped, `..`
pops a preceding ordinary segment (for a relative path, unmatched `..`
segments are kept; for an absolute path they are dropped at the root). -/
def normalizeSegs (isAbs : Bool) : List (List Char) → List (List Char) → List (List Char)
  | acc, [] => acc.reverse
  | acc, seg :: rest =>
      if seg = [] ∨ seg = ['.'] then normalizeSegs isAbs acc rest
      else if seg = ['.', '.'] then
        match acc with
        | top :: acc' =>
            if top ≠ ['.', '.'] then normalizeSegs isAbs acc' rest
            else normalizeSegs isAbs (seg :: acc) rest
        | [] =>
            if isAbs then normalizeSegs isAbs [] rest
            else normalizeSegs isAbs [seg] rest
      else normalizeSegs isAbs (seg :: acc) rest

def intercalateChar (sep : Char) : List (List Char) → List Char
  | [] => []
  | [s] => s
  | s :: rest => s ++ sep :: intercalateChar sep rest

/-- Node `path.join(...args)`: drop empty arguments, join the rest with
`'/'`, then normalize (`.`/`..`/duplicate-separator resolution); the empty
join yields `"."`. -/
def pathJoinArgs (args : List (List Char)) : List Char :=
  let nonempty := args.filter (· ≠ [])
  match nonempty with
  | [] => ['.']
  | _ =>
      let joined := intercalateChar '/' nonempty
      let isAbs := joined.head? = some '/'
      let segs := normalizeSegs isAbs [] (splitSlash joined)
      match segs with
      | [] => if isAbs then ['/'] else ['.']
      | _ => (if isAbs then ['/'] else []) ++ intercalateChar '/' segs

/-- `FileHandler.convertWikiNameToPath` on character lists: split on `'-'`;
with more than one part, `path.join` of all parts (directories then file
name); append `".md"` unless already present; finally `path.join` with a
nonempty base directory. -/
def convertWikiNameToPathL (w : List Char) (baseDir : List Char) : List Char :=
  let parts := splitDash w
  let fp := if parts.length > 1 then pathJoinArgs parts else w
  let fp2 := if hasMdSuffixCS fp then fp else fp ++ ['.', 'm', 'd']
  if baseDir ≠ [] then pathJoinArgs [baseDir, fp2] else fp2

def convertWikiNameToPath (w : String) (baseDir : String := "") : String :=
  ⟨convertWikiNameToPathL w.data baseDir.data⟩

/-! ## Transaction manager (`transaction-manager`)

State is passed explicitly; `crypto.randomUUID()` becomes an explicit
fresh-id argument, and the `Date`/sha256 fields of a checkpoint (timestamp,
fingerprint hash) are omitted as clock/crypto effects no claim touches.
The class's auxiliary hash-keyed checkpoint `Map` is likewise audit-only
and omitted. -/

structure FileState where
  path : String
  sha : String
  content : String
  deriving DecidableEq, Repr

structure PageState where
  name : String
  content : String
  deriving DecidableEq, Repr

structure SyncOperation where
  type : ChangeType
  path : String
  content : Option String
  previousContent : Option String
  deriving DecidableEq, Repr

inductive TxStatus where
  | pending | committed | rolledBack
  deriving DecidableEq, Repr

structure Checkpoint where
  repoState : List FileState
  wikiState : List PageState
  deriving DecidableEq, Repr

structure SyncTransaction where
  id : String
  operations : List SyncOperation
  status : TxStatus
  checkpoints : List Checkpoint
  deriving DecidableEq, Repr

structure TMState where
  transaction : Option SyncTransaction
  deriving DecidableEq, Repr

def TMState.init : TMState := { transaction := none }

namespace TransactionManager

/-- `TransactionManager.beginTransaction`: unconditionally installs a fresh
pending transaction with empty operation and checkpoint lists and returns
its id.  (The `Except` return mirrors the async signature; no code path
throws.) -/
def beginTransaction (newId : String) (_s : TMState) :
    Except ErrVal (String × TMState) :=
  Except.ok (newId,
    { transaction := some
        { id := newId, operations := [], status := .pending, checkpoints := [] } })

/-- `TransactionManager.createCheckpoint`. -/
def createCheckpoint (repoFiles : List FileState) (wikiFiles : List PageState)
    (s : TMState) : Except ErrVal (Checkpoint × TMState) :=
  match s.transaction with
  | none => Except.error (ErrVal.mkError "No active transaction")
  | some t =>
      let cp : Checkpoint := { repoState := repoFiles, wikiState := wikiFiles }
      Except.ok (cp,
        { transaction := some { t with checkpoints := t.checkpoints ++ [cp] } })

/-- `TransactionManager.recordOperation`. -/
def recordOperation (op : SyncOperation) (s : TMState) :
    Except ErrVal TMState :=
  match s.transaction with
  | none => Except.error (ErrVal.mkError "No active transaction")
  | some t =>
      Except.ok { transaction := some { t with operations := t.operations ++ [op] } }

/-- `TransactionManager.commit`: requires an open transaction, marks it
committed, and clears the reference in the `finally`. -/
def commit (s : TMState) : Except ErrVal TMState :=
  match s.transaction with
  | none => Except.error (ErrVal.mkError "No active transaction")
  | some _ => Except.ok { transaction := none }

def isInTransaction (s : TMState) : Bool :=
  s.transaction.isSome

end TransactionManager

/-! ## The remote repository store, as seen by rollback

`github.getFileContent / updateFile / createFile` are embedded as explicit
state on an association list keyed by path, with per-path failure oracles
injecting the remote's possible rejections. -/

structure RemoteFile where
  content : String
  sha : String
  deriving DecidableEq, Repr

abbrev RemoteStore := List (String × RemoteFile)

/-- injected behavior of the remote during rollback -/
structure RemoteEnv where
  /-- `getFileContent(path)` rejects (the `.catch(() => null)` then treats
  the file as absent) -/
  getFails : String → Bool
  /-- `updateFile(path, …)` rejects -/
  updateFails : String → Bool
  /-- `createFile(path, …)` rejects -/
  createFails : String → Bool
  /-- revision token the remote assigns to newly written content -/
  newSha : String → String → String

def lookupRemote (store : RemoteStore) (p : String) : Option RemoteFile :=
  (store.find? (·.1 = p)).map (·.2)

def setRemote (store : RemoteStore) (p : String) (f : RemoteFile) : RemoteStore :=
  if store.any (·.1 = p) then
    store.map fun kv => if kv.1 = p then (p, f) else kv
  else
    store ++ [(p, f)]

/-- the remote calls rollback issues, in order -/
inductive RemoteOp where
  /-- `updateFile(path, content, usedSha, …)` -/
  | update (path content usedSha : String)
  /-- `createFile(path, content, …)` -/
  | create (path content : String)
  deriving DecidableEq, Repr

/-- one iteration of the restore loop of
`TransactionManager.restoreRepositoryState`: fetch current remote state
(a fetch rejection is swallowed into `null` by the `.catch`); update under
the current revision when the revision token differs, recreate when
absent; the file's own failure is caught and logged (no store change). -/
def restoreFileStep (env : RemoteEnv) (file : FileState) (store : RemoteStore) :
    RemoteStore × List RemoteOp :=
  let cur := if env.getFails file.path then none else lookupRemote store file.path
  match cur with
  | some c =>
      if c.sha ≠ file.sha then
        if env.updateFails file.path then (store, [])
        else
          (setRemote store file.path
             { content := file.content, sha := env.newSha file.path file.content },
           [RemoteOp.update file.path file.content c.sha])
      else (store, [])
  | none =>
      if env.createFails file.path then (store, [])
      else
        (setRemote store file.path
           { content := file.content, sha := env.newSha file.path file.content },
         [RemoteOp.create file.path file.content])

/-- `TransactionManager.restoreRepositoryState`: the restore loop over the
checkpointed files; one file's failure never aborts the remaining files. -/
def restoreRepositoryState (env : RemoteEnv) : List FileState → RemoteStore →
    RemoteStore × List RemoteOp
  | [], store => (store, [])
  | file :: rest, store =>
      let (store', ops) := restoreFileStep env file store
      let (store'', ops') := restoreRepositoryState env rest store'
      (store'', ops ++ ops')

/-- everything observable about one `rollback()` call -/
structure RollbackOut where
  /-- normal return or the re-thrown error -/
  result : Except ErrVal Unit
  tm : TMState
  store : RemoteStore
  /-- remote repository calls issued while restoring -/
  remoteOps : List RemoteOp
  /-- the secondary (wiki) store: `restoreWikiState` only logs -/
  wikiStore : List PageState
  deriving Repr

/-- `TransactionManager.rollback`: requires an open transaction and a first
checkpoint; restores the primary side from the **first** checkpoint only;
wiki restoration is log-only; the transaction reference is cleared in the
`finally` once the try block was entered. -/
def TransactionManager.rollback (env : RemoteEnv) (store : RemoteStore)
    (wikiStore : List PageState) (s : TMState) : RollbackOut :=
  match s.transaction with
  | none =>
      { result := Except.error (ErrVal.mkError "No active transaction")
        tm := s, store := store, remoteOps := [], wikiStore := wikiStore }
  | some t =>
      match t.checkpoints.head? with
      | none =>
          { result := Except.error (ErrVal.mkError "No checkpoint available for rollback")
            tm := { transaction := none }, store := store, remoteOps := []
            wikiStore := wikiStore }
      | some cp =>
          let (store', ops) := restoreRepositoryState env cp.repoState store
          { result := Except.ok ()
            tm := { transaction := none }, store := store', remoteOps := ops
            wikiStore := wikiStore }

/-! ## Change detection (`sync-engine.ts`, `detectChanges`)

`fs.access` existence, the current working directory and the config are
explicit inputs; JavaScript `Map`s become association lists with `Map.set`
semantics (an existing key keeps its position, a new key is appended;
iteration order is insertion order). -/

structure MarkdownFile where
  path : String
  relativePath : Option String
  name : String
  content : String
  sha : Option String
  lastModified : Nat
  deriving DecidableEq, Repr

structure WikiPage where
  name : String
  pagePath : String
  content : String
  lastModified : Option Nat
  deriving DecidableEq, Repr

/-- `repoFile.relativePath || repoFile.path` (the empty string is falsy) -/
def MarkdownFile.effPath (f : MarkdownFile) : String :=
  match f.relativePath with
  | some p => if p = "" then f.path else p
  | none => f.path

inductive ChangeSource where
  | repo | wiki
  deriving DecidableEq, Repr

inductive ChangeDirection where
  | repoToWiki | wikiToRepo
  deriving DecidableEq, Repr

structure Change where
  type : ChangeType
  source : ChangeSource
  direction : ChangeDirection
  filePath : String
  wikiName : String
  content : Option String := none
  oldContent : Option String := none
  repoModified : Option Nat := none
  wikiModified : Option Nat := none
  deriving DecidableEq, Repr

/-- `Map.prototype.set` on an insertion-ordered association list -/
def mapSet {α : Type} (m : List (String × α)) (k : String) (v : α) :
    List (String × α) :=
  if m.any (·.1 = k) then
    m.map fun kv => if kv.1 = k then (k, v) else kv
  else
    m ++ [(k, v)]

def mapGet {α : Type} (m : List (String × α)) (k : String) : Option α :=
  (m.find? (·.1 = k)).map (·.2)

def mapHas {α : Type} (m : List (String × α)) (k : String) : Bool :=
  m.any (·.1 = k)

/-- the repo-side map: keyed by the wiki name derived from each file's
relative path, in file order -/
def buildRepoFileMap (repoFiles : List MarkdownFile) :
    List (String × MarkdownFile) :=
  repoFiles.foldl (fun m f => mapSet m (convertPathToWikiName f.effPath) f) []

/-- the wiki-side map: keyed by page name, in page order -/
def buildWikiFileMap (wikiFiles : List WikiPage) : List (String × WikiPage) :=
  wikiFiles.foldl (fun m w => mapSet m w.name w) []

/-- the configuration fields `detectChanges` reads (`syncDeletes` is the
optional input, absent meaning enabled: the code tests `!== false`) -/
structure SyncConfig where
  syncFolder : String
  syncDeletes : Option Bool
  deriving DecidableEq, Repr

/-- `path.join(process.cwd(), p)` -/
def joinCwd (cwd p : String) : String :=
  ⟨pathJoinArgs [cwd.data, p.data]⟩

/-- the repo → wiki pass: one entry of `repoFileMap` yields a create when
the wiki lacks the name, an update when contents differ, nothing otherwise. -/
def detectRepoToWiki (wikiMap : List (String × WikiPage))
    (repoMap : List (String × MarkdownFile)) : List Change :=
  repoMap.flatMap fun kv =>
    let wikiName := kv.1
    let repoFile := kv.2
    match mapGet wikiMap wikiName with
    | none =>
        [{ type := .create, source := .repo, direction := .repoToWiki
           filePath := repoFile.effPath, wikiName := wikiName
           content := some repoFile.content }]
    | some wikiFile =>
        if repoFile.content ≠ wikiFile.content then
          [{ type := .update, source := .repo, direction := .repoToWiki
             filePath := repoFile.effPath, wikiName := wikiName
             content := some repoFile.content, oldContent := some wikiFile.content
             repoModified := some repoFile.lastModified
             wikiModified := wikiFile.lastModified }]
        else []

/-- the wiki → repo pass: a wiki-only name whose mapped repo path does not
exist on disk (`fs.access` fails) yields a create. -/
def detectWikiToRepo (cfg : SyncConfig) (fsExists : String → Bool) (cwd : String)
    (repoMap : List (String × MarkdownFile))
    (wikiMap : List (String × WikiPage)) : List Change :=
  wikiMap.flatMap fun kv =>
    let wikiName := kv.1
    let wikiFile := kv.2
    let repoPath := convertWikiNameToPath wikiName cfg.syncFolder
    if mapHas repoMap wikiName then []
    else if fsExists (joinCwd cwd repoPath) then []
    else
      [{ type := .create, source := .wiki, direction := .wikiToRepo
         filePath := repoPath, wikiName := wikiName
         content := some wikiFile.content }]

/-- the delete pass (when delete-sync is not disabled): every wiki name
missing from the repo map yields a repo → wiki delete. -/
def detectDeletes (cfg : SyncConfig)
    (repoMap : List (String × MarkdownFile))
    (wikiMap : List (String × WikiPage)) : List Change :=
  if cfg.syncDeletes ≠ some false then
    wikiMap.flatMap fun kv =>
      let wikiName := kv.1
      if mapHas repoMap wikiName then []
      else
        [{ type := .delete, source := .repo, direction := .repoToWiki
           filePath := convertWikiNameToPath wikiName, wikiName := wikiName }]
  else []

/-- `SyncEngine.detectChanges`. -/
def detectChanges (cfg : SyncConfig) (fsExists : String → Bool) (cwd : String)
    (repoFiles : List MarkdownFile) (wikiFiles : List WikiPage) : List Change :=
  let repoMap := buildRepoFileMap repoFiles
  let wikiMap := buildWikiFileMap wikiFiles
  detectRepoToWiki wikiMap repoMap
    ++ detectWikiToRepo cfg fsExists cwd repoMap wikiMap
    ++ detectDeletes cfg repoMap wikiMap

/-! ## The sync run (`sync-engine.ts`, `SyncEngine.sync`)

The effectful steps are driven by an explicit environment: the outcomes of
the retry-wrapped clone, of the two file-collection reads, of each
breaker-wrapped `applyChange`, and of the retry-wrapped commit-and-push.
The temporary-directory cleanup in the `finally` is a filesystem effect
outside every claim and is not modelled. -/

/-- one entry of `SyncResult.errors` -/
inductive ErrEntry where
  /-- `{change, error}` pushed by the per-change catch -/
  | changeErr (change : Change) (error : String)
  /-- `{phase: 'sync', error}` pushed by the outer catch -/
  | phaseErr (phase : String) (error : String)
  deriving DecidableEq, Repr

structure SyncResultM where
  success : Bool
  changesApplied : Nat
  errors : List ErrEntry
  summary : String
  deriving DecidableEq, Repr

def SyncResultM.init : SyncResultM :=
  { success := true, changesApplied := 0, errors := [], summary := "" }

/-- `error instanceof Error ? error.message : String(error)` -/
def errToMessage : ErrVal → String
  | .vstr s => s
  | .vobj true _ _ m _ => m.getD ""
  | .vobj false _ _ _ r => r
  | .vother r => r

/-- the environment one `sync()` run executes against -/
structure SyncEnv where
  cfg : SyncConfig
  cwd : String
  /-- `fs.access` succeeds for this path -/
  fsExists : String → Bool
  /-- outcome of the retry-wrapped `cloneWiki` -/
  cloneRes : Except ErrVal Unit
  /-- outcome of reading the repo-side markdown files -/
  repoFilesRes : Except ErrVal (List MarkdownFile)
  /-- outcome of reading the wiki pages from the clone -/
  wikiFilesRes : Except ErrVal (List WikiPage)
  /-- outcome of `circuitBreaker.execute(() => applyChange(change))`:
  `none` = resolved, `some e` = rejected with `e` -/
  applyRes : Change → Option ErrVal
  /-- outcome of the retry-wrapped commit-and-push -/
  pushRes : Except ErrVal Unit
  /-- remote behavior during a rollback -/
  remote : RemoteEnv
  remoteStore : RemoteStore

/-- `getCurrentRepoState` (over already-read files) -/
def currentRepoState (repoFiles : List MarkdownFile) : List FileState :=
  repoFiles.map fun f =>
    { path := f.effPath, sha := f.sha.getD "", content := f.content }

/-- `getCurrentWikiState` (over already-read pages) -/
def currentWikiState (wikiFiles : List WikiPage) : List PageState :=
  wikiFiles.map fun w => { name := w.name, content := w.content }

/-- the per-change loop of `sync()`: each change runs the breaker-wrapped
apply and, on success, `recordOperation` + `recordSuccess`; the catch
classifies, appends a change error, records the failure (whose own
threshold error propagates), and aborts on a fatal error or when the
handler says stop.  An abort carries the error thrown together with the
result record as mutated so far. -/
def applyLoop (env : SyncEnv) :
    List Change → TMState → PartialFailureHandler → SyncResultM →
      Except (ErrVal × SyncResultM × TMState)
        (SyncResultM × TMState × PartialFailureHandler)
  | [], tm, fh, result => Except.ok (result, tm, fh)
  | change :: rest, tm, fh, result =>
      let op : OpRec :=
        { type := change.type, path := change.filePath, content := change.content }
      let tryRes : Except ErrVal (TMState × PartialFailureHandler) :=
        match env.applyRes change with
        | some e => Except.error e
        | none =>
            match TransactionManager.recordOperation
                { type := change.type, path := change.filePath
                  content := change.content, previousContent := change.oldContent }
                tm with
            | Except.error e => Except.error e
            | Except.ok tm' => Except.ok (tm', fh.recordSuccess op)
      match tryRes with
      | Except.ok (tm', fh') =>
          applyLoop env rest tm' fh'
            { result with changesApplied := result.changesApplied + 1 }
      | Except.error err =>
          let ectx := ErrorHandler.classify err
          let result' :=
            { result with errors := result.errors ++ [.changeErr change ectx.message] }
          let (r, fh') := fh.recordFailure op err
          match r with
          | Except.error m => Except.error (ErrVal.mkError m, result', tm)
          | Except.ok _ =>
              if ectx.fatal || !fh'.shouldContinue then
                Except.error
                  (ErrVal.mkError
                     s!"Fatal error or too many failures: {ectx.message}",
                   result', tm)
              else
                applyLoop env rest tm fh' result'

/-- everything observable about one `sync()` call -/
structure SyncOut where
  /-- what `sync()` returns to its caller: the result record on the happy
  path, the re-thrown error otherwise -/
  ret : Except ErrVal SyncResultM
  /-- the local result record as last mutated -/
  resultRec : SyncResultM
  tm : TMState
  rollbackAttempted : Bool
  /-- the attempted rollback itself threw (which is caught and logged) -/
  rollbackFailed : Bool
  deriving Repr

/-- the outer catch of `sync()`: mark the result unsuccessful, append the
phase error, roll back when a transaction is still open (a rollback failure
is logged, not re-raised), and re-throw the original error. -/
def syncCatch (env : SyncEnv) (e : ErrVal) (result : SyncResultM)
    (tm : TMState) : SyncOut :=
  let result' :=
    { result with
      success := false,
      errors := result.errors ++ [.phaseErr "sync" (errToMessage e)] }
  if TransactionManager.isInTransaction tm then
    let rb := TransactionManager.rollback env.remote env.remoteStore [] tm
    { ret := Except.error e,
      resultRec := result',
      tm := rb.tm,
      rollbackAttempted := true,
      rollbackFailed := rb.result.isOk = false }
  else
    { ret := Except.error e,
      resultRec := result',
      tm := tm,
      rollbackAttempted := false,
      rollbackFailed := false }

/-- `SyncEngine.sync`, one run: begin a transaction, clone, checkpoint,
detect changes, apply them, push when anything was applied, commit; any
exception lands in `syncCatch`. -/
def syncModel (newTxId : String) (env : SyncEnv) : SyncOut :=
  let result0 := SyncResultM.init
  match TransactionManager.beginTransaction newTxId TMState.init with
  | Except.error e => syncCatch env e result0 TMState.init
  | Except.ok (_, tm1) =>
    match env.cloneRes with
    | Except.error e => syncCatch env e result0 tm1
    | Except.ok _ =>
      match env.repoFilesRes with
      | Except.error e => syncCatch env e result0 tm1
      | Except.ok repoFiles =>
        match env.wikiFilesRes with
        | Except.error e => syncCatch env e result0 tm1
        | Except.ok wikiFiles =>
          match TransactionManager.createCheckpoint
              (currentRepoState repoFiles) (currentWikiState wikiFiles) tm1 with
          | Except.error e => syncCatch env e result0 tm1
          | Except.ok (_, tm2) =>
            let changes :=
              detectChanges env.cfg env.fsExists env.cwd repoFiles wikiFiles
            match applyLoop env changes tm2 (PartialFailureHandler.mk' true 10)
                result0 with
            | Except.error (e, resultAt, tmAt) => syncCatch env e resultAt tmAt
            | Except.ok (result1, tm3, _) =>
              let pushStep : Except ErrVal Unit :=
                if result1.changesApplied > 0 then env.pushRes else Except.ok ()
              match pushStep with
              | Except.error e => syncCatch env e result1 tm3
              | Except.ok _ =>
                match TransactionManager.commit tm3 with
                | Except.error e => syncCatch env e result1 tm3
                | Except.ok tm4 =>
                  let resultF :=
                    { result1 with summary :=
                        s!"Synchronization completed: {result1.changesApplied} changes applied, {result1.errors.length} errors" }
                  { ret := Except.ok resultF,
                    resultRec := resultF,
                    tm := tm4,
                    rollbackAttempted := false,
                    rollbackFailed := false }

/-! ## Support definitions for the verification -/

/-- a state with one transaction already open -/
def openTMState : TMState :=
  { transaction := some
      { id := "tx1", operations := [], status := .pending, checkpoints := [] } }

/-- the phase rank the spec asserts for the change list: primary→secondary
creates, then primary→secondary updates, then secondary→primary creates,
then primary→secondary deletes (4 = a shape never produced). -/
def specPhaseRank (c : Change) : Nat :=
  match c.type, c.direction with
  | .create, .repoToWiki => 0
  | .update, .repoToWiki => 1
  | .create, .wikiToRepo => 2
  | .delete, .repoToWiki => 3
  | _, _ => 4

/-- the phase rank the code actually produces: one repo→wiki pass emitting
creates and updates interleaved, then wiki→repo creates, then deletes
(3 = a shape never produced). -/
def codePhaseRank (c : Change) : Nat :=
  match c.type, c.direction with
  | .create, .repoToWiki => 0
  | .update, .repoToWiki => 0
  | .create, .wikiToRepo => 1
  | .delete, .repoToWiki => 2
  | _, _ => 3

/-- `true` when neither of two adjacent characters is a path separator
anywhere in the list (the claim's "no adjacent path separators"). -/
def noAdjacentSeps : List Char → Bool
  | [] => true
  | [_] => true
  | a :: b :: t =>
      !((a = '/' ∨ a = '\\') && (b = '/' ∨ b = '\\')) && noAdjacentSeps (b :: t)

/-- `errors` entries produced inside the per-change loop -/
def ErrEntry.isChangeErr : ErrEntry → Bool
  | .changeErr _ _ => true
  | .phaseErr _ _ => false

/-- a concrete markdown file for witnesses and counterexamples -/
def mdFile (p c : String) : MarkdownFile :=
  { path := p, relativePath := some p, name := p, content := c
    sha := none, lastModified := 0 }

/-- a concrete wiki page for witnesses and counterexamples -/
def wikiPage (n c : String) : WikiPage :=
  { name := n, pagePath := n, content := c, lastModified := none }

/-- a remote that never rejects anything -/
def benignRemote : RemoteEnv :=
  { getFails := fun _ => false, updateFails := fun _ => false
    createFails := fun _ => false, newSha := fun _ _ => "sha-new" }

/-- a run whose wiki clone step rejects -/
def cloneFailEnv : SyncEnv :=
  { cfg := { syncFolder := "docs", syncDeletes := none }
    cwd := ""
    fsExists := fun _ => false
    cloneRes := Except.error (ErrVal.mkError "clone failed")
    repoFilesRes := Except.ok []
    wikiFilesRes := Except.ok []
    applyRes := fun _ => none
    pushRes := Except.ok ()
    remote := benignRemote
    remoteStore := [] }

/-- the error carries no HTTP-like status the classifier acts on -/
def noStatusMatch (e : ErrVal) : Prop :=
  ∀ v, ErrorHandler.statusOf e = some v → v ≠ 403 ∧ v ≠ 401 ∧ v ≠ 404

/-- the error carries no system code the classifier acts on -/
def noCodeMatch (e : ErrVal) : Prop :=
  ∀ c, ErrorHandler.codeOf e = some c → c ≠ "ENOENT" ∧ c ≠ "ECONNREFUSED"

/-! # Theorems -/

/-! ## C8: partial failure threshold -/

theorem recordFailure_snd (op : OpRec) (e : ErrVal) (h : PartialFailureHandler) :
    (h.recordFailure op e).2 =
      { h with failedOperations := h.failedOperations ++ [(op, e)] } := by
  simp only [PartialFailureHandler.recordFailure]
  split <;> rfl

theorem recordFailure_fst_ok (op : OpRec) (e : ErrVal) (h : PartialFailureHandler)
    (hlen : h.failedOperations.length + 1 ≤ h.maxFailureThreshold) :
    (h.recordFailure op e).1 =
      Except.ok { h with failedOperations := h.failedOperations ++ [(op, e)] } := by
  unfold PartialFailureHandler.recordFailure
  simp only [List.length_append, List.length_cons, List.length_nil]
  split
  · omega
  · rfl

theorem recordN_state (op : OpRec) (e : ErrVal) :
    ∀ (k : Nat) (h : PartialFailureHandler),
      (PartialFailureHandler.recordN op e k h).2 =
        { h with failedOperations :=
            h.failedOperations ++ List.replicate k (op, e) } := by
  intro k
  induction k with
  | zero => intro h; simp [PartialFailureHandler.recordN]
  | succ n ih =>
      intro h
      simp only [PartialFailureHandler.recordN]
      rw [recordFailure_snd, ih]
      simp [List.replicate_succ]

theorem recordN_all_ok (op : OpRec) (e : ErrVal) :
    ∀ (k : Nat) (h : PartialFailureHandler),
      h.failedOperations.length + k ≤ h.maxFailureThreshold →
      ((PartialFailureHandler.recordN op e k h).1.all (·.isOk)) = true := by
  intro k
  induction k with
  | zero => intro h _; simp [PartialFailureHandler.recordN]
  | succ n ih =>
      intro h hk
      simp only [PartialFailureHandler.recordN]
      rw [recordFailure_snd]
      rw [recordFailure_fst_ok op e h (by omega)]
      simp only [List.all_cons, Except.isOk, Bool.and_eq_true]
      constructor
      · rfl
      · exact ih _ (by simp; omega)

/-- C8: with any threshold `N`, the first `N` `recordFailure` calls each
return normally, `shouldContinue()` after them equals `continueOnError`
(so is `true` at exactly `N` failures when `continueOnError` holds), the
`(N+1)`-th call raises the threshold-exceeded error, and `shouldContinue()`
always equals `continueOnError AND failures.length <= maxFailureThreshold`. -/
theorem partialFailure_threshold (n : Nat) (cont : Bool) (op : OpRec) (e : ErrVal) :
    ((PartialFailureHandler.recordN op e n (PartialFailureHandler.mk' cont n)).1.all
        (·.isOk)) = true ∧
    (PartialFailureHandler.recordN op e n (PartialFailureHandler.mk' cont n)).2.shouldContinue
        = cont ∧
    (((PartialFailureHandler.recordN op e n
        (PartialFailureHandler.mk' cont n)).2.recordFailure op e).1.isOk = false) ∧
    (∀ h : PartialFailureHandler,
      h.shouldContinue =
        (h.continueOnError && decide (h.failedOperations.length ≤ h.maxFailureThreshold))) := by
  refine ⟨?_, ?_, ?_, ?_⟩
  · exact recordN_all_ok op e n _ (by simp [PartialFailureHandler.mk'])
  · rw [recordN_state]
    simp [PartialFailureHandler.shouldContinue, PartialFailureHandler.mk']
  · rw [recordN_state]
    simp only [PartialFailureHandler.recordFailure]
    split
    · rfl
    · next hcond =>
        exfalso
        simp [PartialFailureHandler.mk'] at hcond
  · intro h
    rfl

/-! ## C2: beginTransaction with a transaction already open -/

/-- C2, counterexample: with a transaction already open, `beginTransaction`
does not fail — it succeeds (replacing the open transaction), contradicting
the claim that it fails whenever a transaction is open. -/
theorem beginTransaction_counterexample :
    TransactionManager.isInTransaction openTMState = true ∧
    (TransactionManager.beginTransaction "tx2" openTMState).isOk = true :=
  ⟨rfl, rfl⟩

/-- C2, amended: `beginTransaction` never fails: whatever the current
state — even with a transaction already open — it succeeds, installing a
fresh transaction with the given id, empty operation and checkpoint lists
and status `pending`, discarding any previously open transaction. -/
theorem beginTransaction_amended (newId : String) (s : TMState) :
    ∃ s' : TMState,
      TransactionManager.beginTransaction newId s = Except.ok (newId, s') ∧
      s'.transaction = some
        { id := newId, operations := [], status := .pending, checkpoints := [] } :=
  ⟨_, rfl, rfl⟩

/-! ## C6: circuit breaker state machine -/

/-- C6, counterexample: with `threshold = 3`, the trace fail (t=0), fail
(t=1), success (t=2), fail (t=3) leaves the breaker `OPEN`, and a call at
t=4 fails fast without invoking the operation — although only one
consecutive failure follows the intervening success.  The success at t=2
happened while `CLOSED`, and `reset` only runs on a `HALF_OPEN` success,
so the failure count is not cleared: the claim's parenthetical "an
intervening success means failures do not accumulate toward threshold" is
false of the code. -/
theorem circuitBreaker_counterexample :
    (CircuitBreaker.runCalls 3 100 [(0, false), (1, false), (2, true), (3, false)]
        CircuitBreaker.init).2.state = CBState.OPEN ∧
    (CircuitBreaker.runCalls 3 100
        [(0, false), (1, false), (2, true), (3, false), (4, true)]
        CircuitBreaker.init).1 =
      [.opErr, .opErr, .opOk, .opErr, .breakerOpen] := by
  constructor <;> rfl

/-- C6, amended: the breaker opens exactly when the count of failures since
the last reset reaches `threshold` (a success while `CLOSED` does *not*
clear the count — only a `HALF_OPEN` trial success does); while `OPEN` and
within `timeout` of the last failure, `execute` raises the breaker-open
error without invoking the operation; once strictly more than `timeout`
has elapsed, the next `execute` transitions to `HALF_OPEN` and runs the
operation as a trial; a trial success resets the count to 0 and closes the
breaker; a trial failure re-opens it and resets `lastFailureAt`. -/
theorem circuitBreaker_amended (threshold timeout now : Nat)
    (cb : CircuitBreaker) (opOk? : Bool) :
    (cb.state = .OPEN → now - cb.lastFailureTime ≤ timeout →
      cb.execute threshold timeout now opOk? = (.breakerOpen, cb)) ∧
    (cb.state = .OPEN → now - cb.lastFailureTime > timeout → opOk? = true →
      cb.execute threshold timeout now opOk? =
        (.opOk, { cb with failureCount := 0, state := .CLOSED })) ∧
    (cb.state = .OPEN → now - cb.lastFailureTime > timeout → opOk? = false →
      threshold ≤ cb.failureCount →
      cb.execute threshold timeout now opOk? =
        (.opErr, { failureCount := cb.failureCount + 1, lastFailureTime := now
                   state := .OPEN })) ∧
    (cb.state = .CLOSED → opOk? = true →
      cb.execute threshold timeout now opOk? = (.opOk, cb)) ∧
    (cb.state = .CLOSED → opOk? = false →
      cb.execute threshold timeout now opOk? =
        (.opErr, { failureCount := cb.failureCount + 1, lastFailureTime := now
                   state := if cb.failureCount + 1 ≥ threshold then .OPEN
                            else .CLOSED })) := by
  refine ⟨?_, ?_, ?_, ?_, ?_⟩
  · intro hst htime
    have h2 : ¬ (now - cb.lastFailureTime > timeout) := by omega
    simp [CircuitBreaker.execute, hst, h2]
  · intro hst htime hop
    subst hop
    simp [CircuitBreaker.execute, hst, htime, CircuitBreaker.reset]
  · intro hst htime hop hthr
    subst hop
    have h3 : cb.failureCount + 1 ≥ threshold := by omega
    simp [CircuitBreaker.execute, hst, htime, CircuitBreaker.recordFailure, h3]
  · intro hst hop
    subst hop
    simp [CircuitBreaker.execute, hst]
  · intro hst hop
    subst hop
    simp [CircuitBreaker.execute, hst, CircuitBreaker.recordFailure]

/-- C6, witness: the amended theorem applied at a concrete `OPEN` breaker
within the timeout window. -/
theorem circuitBreaker_amended_witness :
    CircuitBreaker.execute 3 100 15 true
        { failureCount := 3, lastFailureTime := 10, state := .OPEN } =
      (.breakerOpen, { failureCount := 3, lastFailureTime := 10, state := .OPEN }) :=
  (circuitBreaker_amended 3 100 15
      { failureCount := 3, lastFailureTime := 10, state := .OPEN } true).1
    rfl (by decide)

/-! ## C7: the error classifier -/

/-- C7: `classify` is a total function (one category per input, by
construction), its `(retryable, fatal)` flags equal the fixed table for
the returned category, and the category follows the detection priority:
HTTP-like status (403 → RateLimit, 401 → AuthError, 404 → FileNotFound),
else system code (ENOENT → FileNotFound, ECONNREFUSED → NetworkError),
else the ordered message patterns (with Unknown as the final default). -/
theorem classify_total_table (e : ErrVal) :
    (((ErrorHandler.classify e).retryable, (ErrorHandler.classify e).fatal) =
      match (ErrorHandler.classify e).type with
      | .RATE_LIMIT => (true, false)
      | .AUTH_ERROR => (false, true)
      | .FILE_NOT_FOUND => (false, false)
      | .NETWORK_ERROR => (true, false)
      | .CONFLICT => (false, false)
      | .VALIDATION_ERROR => (false, true)
      | .UNKNOWN => (true, false)) ∧
    (ErrorHandler.statusOf e = some 403 →
      (ErrorHandler.classify e).type = .RATE_LIMIT) ∧
    (ErrorHandler.statusOf e = some 401 →
      (ErrorHandler.classify e).type = .AUTH_ERROR) ∧
    (ErrorHandler.statusOf e = some 404 →
      (ErrorHandler.classify e).type = .FILE_NOT_FOUND) ∧
    (noStatusMatch e → ErrorHandler.codeOf e = some "ENOENT" →
      (ErrorHandler.classify e).type = .FILE_NOT_FOUND) ∧
    (noStatusMatch e → ErrorHandler.codeOf e = some "ECONNREFUSED" →
      (ErrorHandler.classify e).type = .NETWORK_ERROR) ∧
    (noStatusMatch e → noCodeMatch e →
      (ErrorHandler.classify e).type =
        ErrorHandler.patternType (ErrorHandler.getErrorMessage e)) := by
  refine ⟨?_, ?_, ?_, ?_, ?_, ?_, ?_⟩
  · simp only [ErrorHandler.classify]
    generalize ErrorHandler.detectErrorType e (ErrorHandler.getErrorMessage e) = t
    cases t <;> rfl
  · intro h
    simp [ErrorHandler.classify, ErrorHandler.detectErrorType, h]
  · intro h
    simp [ErrorHandler.classify, ErrorHandler.detectErrorType, h]
  · intro h
    simp [ErrorHandler.classify, ErrorHandler.detectErrorType, h]
  · intro hs hc
    simp only [ErrorHandler.classify, ErrorHandler.detectErrorType, hc]
    cases hst : ErrorHandler.statusOf e with
    | none => simp
    | some v =>
        rcases hs v hst with ⟨h1, h2, h3⟩
        simp [h1, h2, h3]
  · intro hs hc
    simp only [ErrorHandler.classify, ErrorHandler.detectErrorType, hc]
    cases hst : ErrorHandler.statusOf e with
    | none => simp
    | some v =>
        rcases hs v hst with ⟨h1, h2, h3⟩
        simp [h1, h2, h3]
  · intro hs hc
    simp only [ErrorHandler.classify, ErrorHandler.detectErrorType]
    cases hcd : ErrorHandler.codeOf e with
    | none =>
        cases hst : ErrorHandler.statusOf e with
        | none => simp
        | some v =>
            rcases hs v hst with ⟨h1, h2, h3⟩
            simp [h1, h2, h3]
    | some c =>
        rcases hc c hcd with ⟨hc1, hc2⟩
        cases hst : ErrorHandler.statusOf e with
        | none => simp [hc1, hc2]
        | some v =>
            rcases hs v hst with ⟨h1, h2, h3⟩
            simp [h1, h2, h3, hc1, hc2]

/-- C7, witness: the theorem applied at a 403-status object. -/
theorem classify_total_table_witness :
    (ErrorHandler.classify (ErrVal.vobj false (some 403) none none "resp")).type =
      ErrorType.RATE_LIMIT :=
  (classify_total_table (ErrVal.vobj false (some 403) none none "resp")).2.1 rfl

/-! ## C10: name collisions and the existence guard -/

theorem detectRepoToWiki_direction (wm : List (String × WikiPage))
    (rm : List (String × MarkdownFile)) :
    ∀ c ∈ detectRepoToWiki wm rm, c.direction = .repoToWiki := by
  intro c hc
  simp only [detectRepoToWiki, List.mem_flatMap] at hc
  obtain ⟨kv, _, hc⟩ := hc
  split at hc
  · simp only [List.mem_singleton] at hc
    subst hc; rfl
  · split at hc
    · simp only [List.mem_singleton] at hc
      subst hc; rfl
    · simp at hc

theorem detectDeletes_direction (cfg : SyncConfig)
    (rm : List (String × MarkdownFile)) (wm : List (String × WikiPage)) :
    ∀ c ∈ detectDeletes cfg rm wm, c.direction = .repoToWiki := by
  intro c hc
  simp only [detectDeletes] at hc
  split at hc
  · simp only [List.mem_flatMap] at hc
    obtain ⟨kv, _, hc⟩ := hc
    split at hc
    · simp at hc
    · simp only [List.mem_singleton] at hc
      subst hc; rfl
  · simp at hc

theorem detectWikiToRepo_guard (cfg : SyncConfig) (fsE : String → Bool)
    (cwd : String) (rm : List (String × MarkdownFile))
    (wm : List (String × WikiPage)) :
    ∀ c ∈ detectWikiToRepo cfg fsE cwd rm wm,
      c.type = .create ∧ c.direction = .wikiToRepo ∧
      mapHas rm c.wikiName = false ∧
      fsE (joinCwd cwd (convertWikiNameToPath c.wikiName cfg.syncFolder)) = false := by
  intro c hc
  simp only [detectWikiToRepo, List.mem_flatMap] at hc
  obtain ⟨kv, _, hc⟩ := hc
  split at hc
  · simp at hc
  · next hhas =>
    split at hc
    · simp at hc
    · next hfs =>
        simp only [List.mem_singleton] at hc
        subst hc
        exact ⟨rfl, rfl, by simpa using hhas, by simpa using hfs⟩

/-- C10: `convertPathToWikiName` is not injective — `"docs/a-b.md"` and
`"docs/a/b.md"` are distinct primary paths with the same wiki name — and
`detectChanges` only emits a wiki→repo `Create` for a wiki-only name when
the on-disk existence check of the mapped primary path fails (so a
colliding name whose primary file exists produces no such create). -/
theorem collision_and_existence_guard :
    (convertPathToWikiName "docs/a-b.md" = convertPathToWikiName "docs/a/b.md" ∧
      "docs/a-b.md" ≠ "docs/a/b.md") ∧
    (∀ (cfg : SyncConfig) (fsE : String → Bool) (cwd : String)
        (repoFiles : List MarkdownFile) (wikiFiles : List WikiPage)
        (c : Change), c ∈ detectChanges cfg fsE cwd repoFiles wikiFiles →
        c.direction = .wikiToRepo →
        c.type = .create ∧
        mapHas (buildRepoFileMap repoFiles) c.wikiName = false ∧
        fsE (joinCwd cwd (convertWikiNameToPath c.wikiName cfg.syncFolder)) = false) := by
  constructor
  · exact ⟨by decide, by decide⟩
  · intro cfg fsE cwd repoFiles wikiFiles c hc hdir
    simp only [detectChanges, List.mem_append] at hc
    rcases hc with (hc | hc) | hc
    · have h := detectRepoToWiki_direction _ _ c hc
      rw [h] at hdir
      simp at hdir
    · obtain ⟨h1, _, h3, h4⟩ := detectWikiToRepo_guard _ _ _ _ _ c hc
      exact ⟨h1, h3, h4⟩
    · have := detectDeletes_direction _ _ _ c hc
      rw [this] at hdir
      exact absurd hdir (by simp)

/-- C10, witness: the guard conclusion at a one-page wiki and empty repo. -/
theorem collision_and_existence_guard_witness :
    ChangeType.create = ChangeType.create ∧
    mapHas (buildRepoFileMap []) "W" = false ∧
    (fun _ => false : String → Bool)
      (joinCwd "" (convertWikiNameToPath "W" "docs")) = false :=
  collision_and_existence_guard.2 { syncFolder := "docs", syncDeletes := some false }
    (fun _ => false) "" [] [wikiPage "W" "c"]
    { type := .create, source := .wiki, direction := .wikiToRepo
      filePath := convertWikiNameToPath "W" "docs", wikiName := "W"
      content := some "c" }
    (by decide) rfl

/-! ## C3: the order of the change list -/

theorem detectRepoToWiki_rank (wm : List (String × WikiPage))
    (rm : List (String × MarkdownFile)) :
    ∀ c ∈ detectRepoToWiki wm rm, codePhaseRank c = 0 := by
  intro c hc
  simp only [detectRepoToWiki, List.mem_flatMap] at hc
  obtain ⟨kv, _, hc⟩ := hc
  split at hc
  · simp only [List.mem_singleton] at hc
    subst hc; rfl
  · split at hc
    · simp only [List.mem_singleton] at hc
      subst hc; rfl
    · simp at hc

theorem detectWikiToRepo_rank (cfg : SyncConfig) (fsE : String → Bool)
    (cwd : String) (rm : List (String × MarkdownFile))
    (wm : List (String × WikiPage)) :
    ∀ c ∈ detectWikiToRepo cfg fsE cwd rm wm, codePhaseRank c = 1 := by
  intro c hc
  obtain ⟨h1, h2, -, -⟩ := detectWikiToRepo_guard cfg fsE cwd rm wm c hc
  simp [codePhaseRank, h1, h2]

theorem detectDeletes_rank (cfg : SyncConfig)
    (rm : List (String × MarkdownFile)) (wm : List (String × WikiPage)) :
    ∀ c ∈ detectDeletes cfg rm wm, codePhaseRank c = 2 := by
  intro c hc
  simp only [detectDeletes] at hc
  split at hc
  · simp only [List.mem_flatMap] at hc
    obtain ⟨kv, _, hc⟩ := hc
    split at hc
    · simp at hc
    · simp only [List.mem_singleton] at hc
      subst hc; rfl
  · simp at hc

/-- C3, counterexample: with repo files `A`, `B`, `C` (in that order) where
`B` also exists on the wiki with different content, `detectChanges` emits
create `A`, update `B`, create `C` — an update *precedes* a create of the
same direction, so the list is not partitioned into the four strictly
ordered phases the claim describes (all creates before all updates). -/
theorem detectChanges_order_counterexample :
    ¬ List.Pairwise (· ≤ ·)
      ((detectChanges { syncFolder := "docs", syncDeletes := some true }
          (fun _ => false) ""
          [mdFile "A.md" "x", mdFile "B.md" "x", mdFile "C.md" "x"]
          [wikiPage "B" "y"]).map specPhaseRank) := by
  decide

/-- C3, amended: `detectChanges` output is partitioned into **three**
strictly ordered phases: first the repo→wiki pass, emitting creates and
updates interleaved in map-iteration order, then all wiki→repo creates,
then all repo→wiki deletes; no change of a later phase ever precedes a
change of an earlier phase, and only those change shapes occur. -/
theorem detectChanges_phase_order (cfg : SyncConfig) (fsE : String → Bool)
    (cwd : String) (repoFiles : List MarkdownFile) (wikiFiles : List WikiPage) :
    List.Pairwise (· ≤ ·)
      ((detectChanges cfg fsE cwd repoFiles wikiFiles).map codePhaseRank) ∧
    ∀ c ∈ detectChanges cfg fsE cwd repoFiles wikiFiles, codePhaseRank c ≤ 2 := by
  constructor
  · simp only [detectChanges, List.map_append]
    rw [List.pairwise_append]
    refine ⟨?_, ?_, ?_⟩
    · rw [List.pairwise_append]
      refine ⟨?_, ?_, ?_⟩
      · rw [List.pairwise_map]
        apply List.pairwise_of_forall_mem_list
        intro a ha b hb
        rw [detectRepoToWiki_rank _ _ a ha, detectRepoToWiki_rank _ _ b hb]
      · rw [List.pairwise_map]
        apply List.pairwise_of_forall_mem_list
        intro a ha b hb
        rw [detectWikiToRepo_rank _ _ _ _ _ a ha, detectWikiToRepo_rank _ _ _ _ _ b hb]
      · intro x hx y hy
        simp only [List.mem_map] at hx hy
        obtain ⟨a, ha, rfl⟩ := hx
        obtain ⟨b, hb, rfl⟩ := hy
        rw [detectRepoToWiki_rank _ _ a ha, detectWikiToRepo_rank _ _ _ _ _ b hb]
        omega
    · rw [List.pairwise_map]
      apply List.pairwise_of_forall_mem_list
      intro a ha b hb
      rw [detectDeletes_rank _ _ _ a ha, detectDeletes_rank _ _ _ b hb]
    · intro x hx y hy
      simp only [List.mem_append, List.mem_map] at hx hy
      obtain ⟨b, hb, rfl⟩ := hy
      rw [detectDeletes_rank _ _ _ b hb]
      rcases hx with ⟨a, ha, rfl⟩ | ⟨a, ha, rfl⟩
      · rw [detectRepoToWiki_rank _ _ a ha]; omega
      · rw [detectWikiToRepo_rank _ _ _ _ _ a ha]; omega
  · intro c hc
    simp only [detectChanges, List.mem_append] at hc
    rcases hc with (hc | hc) | hc
    · rw [detectRepoToWiki_rank _ _ c hc]; omega
    · rw [detectWikiToRepo_rank _ _ _ _ _ c hc]; omega
    · rw [detectDeletes_rank _ _ _ c hc]

/-- C3, witness: the second conjunct of the amended theorem at the
counterexample inputs. -/
theorem detectChanges_phase_order_witness :
    codePhaseRank
      { type := .create, source := .wiki, direction := .wikiToRepo
        filePath := convertWikiNameToPath "W" "docs", wikiName := "W"
        content := some "y" } ≤ 2 :=
  (detectChanges_phase_order { syncFolder := "docs", syncDeletes := some true }
      (fun _ => false) "" [] [wikiPage "W" "y"]).2 _ (by decide)

/-! ## C4: cardinality on disjoint name sets -/

theorem mapSet_fresh {α : Type} (m : List (String × α)) (k : String) (v : α)
    (h : m.any (·.1 = k) = false) : mapSet m k v = m ++ [(k, v)] := by
  simp [mapSet, h]

theorem foldl_mapSet_nodup {α : Type} (key : α → String) :
    ∀ (items : List α) (m0 : List (String × α)),
      (∀ x ∈ items, m0.any (·.1 = key x) = false) →
      (items.map key).Nodup →
      items.foldl (fun m f => mapSet m (key f) f) m0
        = m0 ++ items.map (fun f => (key f, f)) := by
  intro items
  induction items with
  | nil => intro m0 _ _; simp
  | cons x t ih =>
      intro m0 h0 hnd
      simp only [List.map_cons, List.nodup_cons, List.mem_map] at hnd
      simp only [List.foldl_cons]
      rw [mapSet_fresh _ _ _ (h0 x (by simp))]
      rw [ih (m0 ++ [(key x, x)]) ?_ hnd.2]
      · simp
      · intro y hy
        have hne : ¬ key x = key y := fun heq => hnd.1 ⟨y, hy, heq.symm⟩
        have hy0 := h0 y (by simp [hy])
        simp only [List.any_append, Bool.or_eq_false_iff]
        refine ⟨hy0, ?_⟩
        simp [hne]

theorem flatMap_singleton {α β : Type} (f : α → β) :
    ∀ (l : List α) (g : α → List β),
      (∀ x ∈ l, g x = [f x]) → l.flatMap g = l.map f := by
  intro l
  induction l with
  | nil => intro g _; rfl
  | cons x t ih =>
      intro g h
      simp only [List.flatMap_cons, List.map_cons, h x (by simp)]
      rw [ih g (fun y hy => h y (by simp [hy]))]
      rfl

set_option maxHeartbeats 1000000 in
/-- C4: for disjoint name sets — repo files whose derived wiki names are
pairwise distinct and never equal a wiki page name, wiki pages with
pairwise distinct names whose mapped repo paths are absent from disk —
and delete-sync enabled, `detectChanges` returns exactly the `|A|`
repo→wiki creates, then the `|B|` wiki→repo creates, then the `|B|`
repo→wiki deletes (`|A| + 2|B|` changes in total), each wiki-only name
contributing both a create and a delete in the same run. -/
theorem detectChanges_disjoint_counts (cfg : SyncConfig) (fsE : String → Bool)
    (cwd : String) (repoFiles : List MarkdownFile) (wikiFiles : List WikiPage)
    (hA : (repoFiles.map fun f => convertPathToWikiName f.effPath).Nodup)
    (hB : (wikiFiles.map (·.name)).Nodup)
    (hdisj : ∀ f ∈ repoFiles, ∀ w ∈ wikiFiles,
        convertPathToWikiName f.effPath ≠ w.name)
    (hfs : ∀ w ∈ wikiFiles,
        fsE (joinCwd cwd (convertWikiNameToPath w.name cfg.syncFolder)) = false)
    (hdel : cfg.syncDeletes ≠ some false) :
    detectChanges cfg fsE cwd repoFiles wikiFiles =
      (repoFiles.map fun f =>
        { type := .create, source := .repo, direction := .repoToWiki
          filePath := f.effPath, wikiName := convertPathToWikiName f.effPath
          content := some f.content })
      ++ (wikiFiles.map fun w =>
        { type := .create, source := .wiki, direction := .wikiToRepo
          filePath := convertWikiNameToPath w.name cfg.syncFolder
          wikiName := w.name, content := some w.content })
      ++ (wikiFiles.map fun w =>
        { type := .delete, source := .repo, direction := .repoToWiki
          filePath := convertWikiNameToPath w.name, wikiName := w.name }) ∧
    (detectChanges cfg fsE cwd repoFiles wikiFiles).length =
      repoFiles.length + 2 * wikiFiles.length ∧
    ∀ w ∈ wikiFiles,
      ({ type := .create, source := .wiki, direction := .wikiToRepo
         filePath := convertWikiNameToPath w.name cfg.syncFolder
         wikiName := w.name, content := some w.content } : Change)
          ∈ detectChanges cfg fsE cwd repoFiles wikiFiles ∧
      ({ type := .delete, source := .repo, direction := .repoToWiki
         filePath := convertWikiNameToPath w.name, wikiName := w.name } : Change)
          ∈ detectChanges cfg fsE cwd repoFiles wikiFiles := by
  have hrm : buildRepoFileMap repoFiles =
      repoFiles.map fun f => (convertPathToWikiName f.effPath, f) := by
    simpa using
      foldl_mapSet_nodup (fun f => convertPathToWikiName f.effPath) repoFiles []
        (by simp) hA
  have hwm : buildWikiFileMap wikiFiles = wikiFiles.map fun w => (w.name, w) := by
    simpa using foldl_mapSet_nodup (fun w : WikiPage => w.name) wikiFiles [] (by simp) hB
  have hnotin : ∀ f ∈ repoFiles,
      mapGet (wikiFiles.map fun w => (w.name, w)) (convertPathToWikiName f.effPath)
        = none := by
    intro f hf
    have hfind : List.find? (fun kv => kv.1 = convertPathToWikiName f.effPath)
        (wikiFiles.map fun w => (w.name, w)) = none := by
      rw [List.find?_eq_none]
      intro kv hkv
      simp only [List.mem_map] at hkv
      obtain ⟨w, hw, rfl⟩ := hkv
      simp [(hdisj f hf w hw).symm]
    simp [mapGet, hfind]
  have hnothas : ∀ w ∈ wikiFiles,
      mapHas (repoFiles.map fun f => (convertPathToWikiName f.effPath, f)) w.name
        = false := by
    intro w hw
    unfold mapHas
    rw [List.any_eq_false]
    intro kv hkv
    simp only [List.mem_map] at hkv
    obtain ⟨f, hf, rfl⟩ := hkv
    simp [hdisj f hf w hw]
  have h1 : detectRepoToWiki (buildWikiFileMap wikiFiles) (buildRepoFileMap repoFiles)
      = repoFiles.map fun f =>
        { type := .create, source := .repo, direction := .repoToWiki
          filePath := f.effPath, wikiName := convertPathToWikiName f.effPath
          content := some f.content } := by
    rw [hrm, hwm]
    unfold detectRepoToWiki
    rw [List.flatMap_map]
    apply flatMap_singleton
    intro f hf
    simp only [Function.comp]
    simp [hnotin f hf]
  have h2 : detectWikiToRepo cfg fsE cwd (buildRepoFileMap repoFiles)
        (buildWikiFileMap wikiFiles)
      = wikiFiles.map fun w =>
        { type := .create, source := .wiki, direction := .wikiToRepo
          filePath := convertWikiNameToPath w.name cfg.syncFolder
          wikiName := w.name, content := some w.content } := by
    rw [hrm, hwm]
    unfold detectWikiToRepo
    rw [List.flatMap_map]
    apply flatMap_singleton
    intro w hw
    simp only [Function.comp]
    simp [hnothas w hw, hfs w hw]
  have h3 : detectDeletes cfg (buildRepoFileMap repoFiles) (buildWikiFileMap wikiFiles)
      = wikiFiles.map fun w =>
        { type := .delete, source := .repo, direction := .repoToWiki
          filePath := convertWikiNameToPath w.name, wikiName := w.name } := by
    rw [hrm, hwm]
    unfold detectDeletes
    rw [if_pos hdel]
    rw [List.flatMap_map]
    apply flatMap_singleton
    intro w hw
    simp only [Function.comp]
    simp [hnothas w hw]
  have hcs : detectChanges cfg fsE cwd repoFiles wikiFiles =
      (repoFiles.map fun f =>
        { type := .create, source := .repo, direction := .repoToWiki
          filePath := f.effPath, wikiName := convertPathToWikiName f.effPath
          content := some f.content }) ++ (wikiFiles.map fun w =>
        { type := .create, source := .wiki, direction := .wikiToRepo
          filePath := convertWikiNameToPath w.name cfg.syncFolder
          wikiName := w.name, content := some w.content }) ++ (wikiFiles.map fun w =>
        { type := .delete, source := .repo, direction := .repoToWiki
          filePath := convertWikiNameToPath w.name, wikiName := w.name }) := by
    simp only [detectChanges]
    rw [h1, h2, h3]
  refine ⟨hcs, ?_, ?_⟩
  · rw [hcs]
    simp only [List.length_append, List.length_map]
    omega
  · intro w hw
    rw [hcs]
    constructor
    · simp only [List.mem_append, List.mem_map]
      exact Or.inl (Or.inr ⟨w, hw, rfl⟩)
    · simp only [List.mem_append, List.mem_map]
      exact Or.inr ⟨w, hw, rfl⟩

/-- C4, witness: one repo-only file and one wiki-only page yield exactly
one create each way plus one delete — three changes. -/
theorem detectChanges_disjoint_counts_witness :
    (detectChanges { syncFolder := "docs", syncDeletes := none }
        (fun _ => false) "" [mdFile "A.md" "x"] [wikiPage "B" "y"]).length =
      1 + 2 * 1 :=
  (detectChanges_disjoint_counts { syncFolder := "docs", syncDeletes := none }
      (fun _ => false) "" [mdFile "A.md" "x"] [wikiPage "B" "y"]
      (by decide) (by decide) (by decide) (by decide) (by decide)).2.1

/-! ## C9: name/path round trip -/

theorem hasMdSuffixCI_append (s : List Char) :
    hasMdSuffixCI (s ++ ['.', 'm', 'd']) = true := by
  unfold hasMdSuffixCI
  rw [List.reverse_append]
  rfl

theorem stripMd_append (s : List Char) :
    stripMdSuffix (s ++ ['.', 'm', 'd']) = s := by
  unfold stripMdSuffix
  rw [if_pos (hasMdSuffixCI_append s)]
  have hlen : (s ++ ['.', 'm', 'd']).length - 3 = s.length := by simp
  rw [hlen]
  exact List.take_left _ _

theorem sepToDash_id (s : List Char) (h1 : '/' ∉ s) (h2 : '\\' ∉ s) :
    sepToDash s = s := by
  induction s with
  | nil => rfl
  | cons c cs ih =>
      simp only [List.mem_cons, not_or] at h1 h2
      have hc : ¬ (c = '/' ∨ c = '\\') := by
        rintro (rfl | rfl)
        · exact h1.1 rfl
        · exact h2.1 rfl
      have step : sepToDash (c :: cs) =
          (if c = '/' ∨ c = '\\' then '-' else c) :: sepToDash cs := rfl
      rw [step, if_neg hc, ih h1.2 h2.2]

theorem sepToDash_intercalate (segs : List (List Char))
    (h : ∀ s ∈ segs, '/' ∉ s ∧ '\\' ∉ s) :
    sepToDash (intercalateChar '/' segs) = intercalateChar '-' segs := by
  induction segs with
  | nil => rfl
  | cons s t ih =>
      cases t with
      | nil => exact sepToDash_id s (h s (by simp)).1 (h s (by simp)).2
      | cons s2 t2 =>
          show sepToDash (s ++ '/' :: intercalateChar '/' (s2 :: t2))
              = s ++ '-' :: intercalateChar '-' (s2 :: t2)
          rw [show sepToDash (s ++ '/' :: intercalateChar '/' (s2 :: t2))
              = sepToDash s ++ sepToDash ('/' :: intercalateChar '/' (s2 :: t2))
            from List.map_append _ _ _]
          rw [sepToDash_id s (h s (by simp)).1 (h s (by simp)).2]
          congr 1
          have step : sepToDash ('/' :: intercalateChar '/' (s2 :: t2)) =
              (if ('/' : Char) = '/' ∨ ('/' : Char) = '\\' then '-' else '/')
                :: sepToDash (intercalateChar '/' (s2 :: t2)) := rfl
          rw [step, if_pos (Or.inl rfl), ih (fun x hx => h x (by simp [hx]))]

theorem collapseDashes_cons_cons (a b : Char) (t : List Char) :
    collapseDashes (a :: b :: t) =
      if a = '-' ∧ b = '-' then collapseDashes (b :: t)
      else a :: collapseDashes (b :: t) := rfl

theorem collapseDashes_noDash_append (s t : List Char) (h : '-' ∉ s) :
    collapseDashes (s ++ t) = s ++ collapseDashes t := by
  induction s with
  | nil => rfl
  | cons c cs ih =>
      simp only [List.mem_cons, not_or] at h
      rw [List.cons_append]
      cases hcase : cs ++ t with
      | nil =>
          obtain ⟨hcs, ht⟩ := List.append_eq_nil.mp hcase
          subst hcs; subst ht
          rfl
      | cons b l =>
          rw [collapseDashes_cons_cons]
          rw [if_neg (by rintro ⟨hc, -⟩; exact h.1 hc.symm)]
          rw [← hcase, ih h.2]
          rfl

theorem intercalate_cons_ne_nil (sep : Char) (s : List Char)
    (t : List (List Char)) (h : s ≠ []) : intercalateChar sep (s :: t) ≠ [] := by
  cases t with
  | nil => simpa using h
  | cons s2 t2 =>
      show s ++ sep :: intercalateChar sep (s2 :: t2) ≠ []
      simp

theorem intercalate_head (sep c : Char) (cs : List Char) (t : List (List Char)) :
    (intercalateChar sep ((c :: cs) :: t)).head? = some c := by
  cases t with
  | nil => rfl
  | cons s2 t2 => rfl

theorem collapseDashes_intercalate (segs : List (List Char))
    (h : ∀ s ∈ segs, s ≠ [] ∧ '-' ∉ s) :
    collapseDashes (intercalateChar '-' segs) = intercalateChar '-' segs := by
  induction segs with
  | nil => rfl
  | cons s t ih =>
      cases t with
      | nil =>
          show collapseDashes s = s
          have h0 := collapseDashes_noDash_append s [] (h s (by simp)).2
          rw [show collapseDashes ([] : List Char) = [] from rfl] at h0
          simpa using h0
      | cons s2 t2 =>
          show collapseDashes (s ++ '-' :: intercalateChar '-' (s2 :: t2))
              = s ++ '-' :: intercalateChar '-' (s2 :: t2)
          rw [collapseDashes_noDash_append s _ (h s (by simp)).2]
          congr 1
          have hs2ne := (h s2 (by simp)).1
          have hs2nd := (h s2 (by simp)).2
          obtain ⟨c, cs, hs2⟩ := List.exists_cons_of_ne_nil hs2ne
          have hhead : (intercalateChar '-' (s2 :: t2)).head? = some c := by
            rw [hs2]; exact intercalate_head '-' c cs t2
          obtain ⟨l, hl⟩ : ∃ l, intercalateChar '-' (s2 :: t2) = c :: l := by
            cases hI : intercalateChar '-' (s2 :: t2) with
            | nil => rw [hI] at hhead; simp at hhead
            | cons x l =>
                rw [hI] at hhead
                simp only [List.head?_cons, Option.some_inj] at hhead
                exact ⟨l, by rw [hhead]⟩
          have hc : c ≠ '-' := by
            rw [hs2] at hs2nd
            simp only [List.mem_cons, not_or] at hs2nd
            exact fun hh => hs2nd.1 hh.symm
          rw [hl, collapseDashes_cons_cons]
          rw [if_neg (by rintro ⟨-, hcc⟩; exact hc hcc)]
          rw [← hl, ih (fun x hx => h x (by simp [hx]))]

theorem trimDashes_id (l : List Char)
    (h1 : ∀ c, l.head? = some c → c ≠ '-')
    (h2 : ∀ c, l.getLast? = some c → c ≠ '-') :
    trimDashes l = l := by
  unfold trimDashes
  have hdrop : l.dropWhile (· = '-') = l := by
    cases l with
    | nil => rfl
    | cons c cs =>
        rw [List.dropWhile_cons]
        rw [if_neg (by simpa using h1 c rfl)]
  rw [hdrop]
  have hdrop2 : l.reverse.dropWhile (· = '-') = l.reverse := by
    cases hr : l.reverse with
    | nil => rfl
    | cons c cs =>
        rw [List.dropWhile_cons]
        have hlast : l.getLast? = some c := by
          rw [← List.head?_reverse, hr]; rfl
        rw [if_neg (by simpa using h2 c hlast)]
  rw [hdrop2, List.reverse_reverse]

theorem intercalate_getLast (sep : Char) :
    ∀ (segs : List (List Char)) (s : List Char),
      (∀ x ∈ segs, x ≠ []) → segs.getLast? = some s →
      (intercalateChar sep segs).getLast? = s.getLast? := by
  intro segs
  induction segs with
  | nil => intro s _ hs; simp at hs
  | cons a t ih =>
      intro s hne hs
      cases t with
      | nil =>
          simp only [List.getLast?_singleton, Option.some_inj] at hs
          subst hs
          rfl
      | cons s2 t2 =>
          have hs' : (s2 :: t2).getLast? = some s := by
            rw [← List.getLast?_cons_cons (l := t2) (a := a)]
            exact hs
          show (a ++ sep :: intercalateChar sep (s2 :: t2)).getLast? = s.getLast?
          rw [List.getLast?_append_of_ne_nil _ (by simp)]
          have hI : intercalateChar sep (s2 :: t2) ≠ [] :=
            intercalate_cons_ne_nil sep s2 t2 (hne s2 (by simp))
          rw [show (sep :: intercalateChar sep (s2 :: t2)) =
              [sep] ++ intercalateChar sep (s2 :: t2) from rfl]
          rw [List.getLast?_append_of_ne_nil _ hI]
          exact ih s (fun x hx => hne x (by simp [hx])) hs'

theorem splitOnChar_noSep (sep : Char) (s : List Char) (h : sep ∉ s) :
    splitOnChar sep s = [s] := by
  induction s with
  | nil => rfl
  | cons c cs ih =>
      simp only [List.mem_cons, not_or] at h
      unfold splitOnChar
      rw [if_neg (fun hc => h.1 hc.symm)]
      rw [ih h.2]

theorem splitOnChar_append_noSep (sep : Char) :
    ∀ (s t : List Char), sep ∉ s →
      ∀ hd tl, splitOnChar sep t = hd :: tl →
      splitOnChar sep (s ++ t) = (s ++ hd) :: tl := by
  intro s
  induction s with
  | nil => intro t _ hd tl ht; simpa using ht
  | cons c cs ih =>
      intro t h hd tl ht
      simp only [List.mem_cons, not_or] at h
      rw [List.cons_append]
      unfold splitOnChar
      rw [if_neg (fun hc => h.1 hc.symm)]
      rw [ih t h.2 hd tl ht]
      rfl

theorem splitOnChar_intercalate (sep : Char) :
    ∀ (segs : List (List Char)), (∀ s ∈ segs, sep ∉ s) → segs ≠ [] →
      splitOnChar sep (intercalateChar sep segs) = segs := by
  intro segs
  induction segs with
  | nil => intro _ h; exact absurd rfl h
  | cons s t ih =>
      intro h _
      cases t with
      | nil => exact splitOnChar_noSep sep s (h s (by simp))
      | cons s2 t2 =>
          show splitOnChar sep (s ++ sep :: intercalateChar sep (s2 :: t2))
              = s :: s2 :: t2
          have htail : splitOnChar sep (sep :: intercalateChar sep (s2 :: t2))
              = [] :: (s2 :: t2) := by
            unfold splitOnChar
            rw [if_pos rfl]
            rw [ih (fun x hx => h x (by simp [hx])) (by simp)]
          have happ := splitOnChar_append_noSep sep s _ (h s (by simp)) [] (s2 :: t2) htail
          simpa using happ

theorem normalizeSegs_good (isAbs : Bool) :
    ∀ (segs acc : List (List Char)),
      (∀ s ∈ segs, s ≠ [] ∧ s ≠ ['.'] ∧ s ≠ ['.', '.']) →
      normalizeSegs isAbs acc segs = acc.reverse ++ segs := by
  intro segs
  induction segs with
  | nil => intro acc _; simp [normalizeSegs]
  | cons s t ih =>
      intro acc h
      obtain ⟨h1, h2, h3⟩ := h s (by simp)
      unfold normalizeSegs
      rw [if_neg (by simp [h1, h2])]
      rw [if_neg h3]
      rw [ih (s :: acc) (fun x hx => h x (by simp [hx]))]
      simp

theorem pathJoinArgs_id (segs : List (List Char)) (hne : segs ≠ [])
    (h : ∀ s ∈ segs, s ≠ [] ∧ '/' ∉ s ∧ s ≠ ['.'] ∧ s ≠ ['.', '.']) :
    pathJoinArgs segs = intercalateChar '/' segs := by
  obtain ⟨s, t, rfl⟩ := List.exists_cons_of_ne_nil hne
  have hfilter : (s :: t).filter (· ≠ []) = s :: t := by
    apply List.filter_eq_self.mpr
    intro a ha
    simpa using (h a ha).1
  obtain ⟨c, cs, hs⟩ := List.exists_cons_of_ne_nil (h s (by simp)).1
  have hc : c ≠ '/' := by
    have := (h s (by simp)).2.1
    rw [hs] at this
    simp only [List.mem_cons, not_or] at this
    exact fun hh => this.1 hh.symm
  have hhead : (intercalateChar '/' (s :: t)).head? = some c := by
    rw [hs]; exact intercalate_head '/' c cs t
  have habs : ((intercalateChar '/' (s :: t)).head? = some '/') = False := by
    rw [hhead]
    simp [hc]
  simp only [pathJoinArgs]
  rw [hfilter]
  simp only [habs, decide_False, Bool.false_eq_true, if_false]
  rw [show splitSlash (intercalateChar '/' (s :: t))
      = splitOnChar '/' (intercalateChar '/' (s :: t)) from rfl]
  rw [splitOnChar_intercalate '/' (s :: t) (fun x hx => (h x hx).2.1) (by simp)]
  rw [normalizeSegs_good false (s :: t) [] (fun x hx => ⟨(h x hx).1, (h x hx).2.2.1, (h x hx).2.2.2⟩)]
  simp [List.reverse_nil, List.nil_append]

theorem hasMdSuffixCS_sep_append (a s : List Char) (h : hasMdSuffixCS s = false) :
    hasMdSuffixCS (a ++ '/' :: s) = false := by
  unfold hasMdSuffixCS at h ⊢
  simp only [decide_eq_false_iff_not] at h ⊢
  rw [List.reverse_append, List.reverse_cons, List.append_assoc]
  rcases hs : s.reverse with _ | ⟨c1, rest1⟩
  · simp
  · rcases rest1 with _ | ⟨c2, rest2⟩
    · simp
    · rcases rest2 with _ | ⟨c3, r⟩
      · simp
      · rw [hs] at h
        simpa using h

theorem hasMdSuffixCS_intercalate :
    ∀ (segs : List (List Char)) (s : List Char), (∀ x ∈ segs, x ≠ []) →
      segs.getLast? = some s → hasMdSuffixCS s = false →
      hasMdSuffixCS (intercalateChar '/' segs) = false := by
  intro segs
  induction segs with
  | nil => intro s _ hs; simp at hs
  | cons a t ih =>
      intro s hne hs hmd
      cases t with
      | nil =>
          simp only [List.getLast?_singleton, Option.some_inj] at hs
          subst hs
          exact hmd
      | cons s2 t2 =>
          have hs' : (s2 :: t2).getLast? = some s := by
            rw [← List.getLast?_cons_cons (l := t2) (a := a)]
            exact hs
          have hI := ih s (fun x hx => hne x (by simp [hx])) hs' hmd
          show hasMdSuffixCS (a ++ '/' :: intercalateChar '/' (s2 :: t2)) = false
          exact hasMdSuffixCS_sep_append a _ hI

/-- C9, counterexample: the relative path `"a"` contains no adjacent path
separators and no occurrence of the join character `'-'`, yet the round
trip does not return it: `convertWikiNameToPath` unconditionally appends
`".md"`, giving `"a.md" ≠ "a"`. -/
theorem roundTrip_counterexample :
    noAdjacentSeps "a".data = true ∧
    '-' ∉ "a".data ∧
    convertWikiNameToPath (convertPathToWikiName "a") ≠ "a" := by
  refine ⟨rfl, by decide, by decide⟩

/-- C9, amended: the round trip holds for every relative path of the form
`seg₁/…/segₙ.md` where each segment is nonempty (no adjacent or leading or
trailing separators), contains no `'-'`, no separator characters, is not
`"."` or `".."` (which `path.join` would normalize away), and the last
segment does not itself end in `".md"` (which would stop the back
conversion from re-appending the extension).  Both directions are
computed by `convertPathToWikiName` / `convertWikiNameToPath` and
preserve segment order. -/
theorem roundTrip_amended (segs : List (List Char)) (hne : segs ≠ [])
    (hseg : ∀ s ∈ segs, s ≠ [] ∧ '-' ∉ s ∧ '/' ∉ s ∧ '\\' ∉ s ∧
        s ≠ ['.'] ∧ s ≠ ['.', '.'])
    (hlast : ∀ s, segs.getLast? = some s → hasMdSuffixCS s = false) :
    convertPathToWikiNameL (intercalateChar '/' segs ++ ['.', 'm', 'd'])
        = intercalateChar '-' segs ∧
    convertWikiNameToPathL (intercalateChar '-' segs) []
        = intercalateChar '/' segs ++ ['.', 'm', 'd'] := by
  constructor
  · unfold convertPathToWikiNameL
    rw [stripMd_append]
    rw [sepToDash_intercalate segs
        (fun s hs => ⟨(hseg s hs).2.2.1, (hseg s hs).2.2.2.1⟩)]
    rw [collapseDashes_intercalate segs
        (fun s hs => ⟨(hseg s hs).1, (hseg s hs).2.1⟩)]
    apply trimDashes_id
    · intro c hc
      obtain ⟨s0, t0, rfl⟩ := List.exists_cons_of_ne_nil hne
      obtain ⟨c0, cs0, hs0⟩ := List.exists_cons_of_ne_nil (hseg s0 (by simp)).1
      rw [hs0, intercalate_head '-' c0 cs0 t0] at hc
      simp only [Option.some_inj] at hc
      subst hc
      have hnd := (hseg s0 (by simp)).2.1
      rw [hs0] at hnd
      simp only [List.mem_cons, not_or] at hnd
      exact fun hh => hnd.1 hh.symm
    · intro c hc
      obtain ⟨sl, hsl⟩ := Option.isSome_iff_exists.mp (List.getLast?_isSome.mpr hne)
      rw [intercalate_getLast '-' segs sl (fun x hx => (hseg x hx).1) hsl] at hc
      have hmem : c ∈ sl := List.mem_of_mem_getLast? (by simp [hc])
      have hnd := (hseg sl (List.mem_of_mem_getLast? (by simp [hsl]))).2.1
      exact fun hh => hnd (hh ▸ hmem)
  · have hsplit : splitDash (intercalateChar '-' segs) = segs :=
      splitOnChar_intercalate '-' segs (fun s hs => (hseg s hs).2.1) hne
    simp only [convertWikiNameToPathL]
    rw [hsplit]
    obtain ⟨sl, hsl⟩ := Option.isSome_iff_exists.mp (List.getLast?_isSome.mpr hne)
    have hmdlast := hlast sl hsl
    cases segs with
    | nil => exact absurd rfl hne
    | cons s0 t0 =>
        cases t0 with
        | nil =>
            simp only [List.getLast?_singleton, Option.some_inj] at hsl
            subst hsl
            rw [if_neg (show ¬ (([s0] : List (List Char)).length > 1) by simp)]
            rw [show intercalateChar '-' [s0] = s0 from rfl]
            rw [if_neg (show ¬ (hasMdSuffixCS s0 = true) by simp [hmdlast])]
            rw [if_neg (show ¬ (([] : List Char) ≠ []) by simp)]
            rfl
        | cons s1 t1 =>
            rw [if_pos (show ((s0 :: s1 :: t1 : List (List Char)).length > 1) by simp)]
            rw [pathJoinArgs_id (s0 :: s1 :: t1) (by simp)
                (fun x hx => ⟨(hseg x hx).1, (hseg x hx).2.2.1,
                  (hseg x hx).2.2.2.2.1, (hseg x hx).2.2.2.2.2⟩)]
            have hmd : hasMdSuffixCS (intercalateChar '/' (s0 :: s1 :: t1)) = false :=
              hasMdSuffixCS_intercalate (s0 :: s1 :: t1) sl
                (fun x hx => (hseg x hx).1) hsl hmdlast
            rw [if_neg (show ¬ (hasMdSuffixCS (intercalateChar '/' (s0 :: s1 :: t1)) = true)
                by simp [hmd])]
            rw [if_neg (show ¬ (([] : List Char) ≠ []) by simp)]

/-- C9, witness: the amended round trip at `"docs/guide.md"`. -/
theorem roundTrip_amended_witness :
    convertPathToWikiNameL
        (intercalateChar '/' [['d','o','c','s'], ['g','u','i','d','e']] ++ ['.', 'm', 'd'])
      = intercalateChar '-' [['d','o','c','s'], ['g','u','i','d','e']] ∧
    convertWikiNameToPathL
        (intercalateChar '-' [['d','o','c','s'], ['g','u','i','d','e']]) []
      = intercalateChar '/' [['d','o','c','s'], ['g','u','i','d','e']] ++ ['.', 'm', 'd'] :=
  roundTrip_amended [['d','o','c','s'], ['g','u','i','d','e']]
    (by decide) (by decide)
    (by
      intro s hs
      simp only [List.getLast?_cons_cons, List.getLast?_singleton,
        Option.some_inj] at hs
      subst hs
      decide)

/-! ## C5: rollback restores from the first checkpoint -/

theorem lookupRemote_map_ne (q : String) (f : RemoteFile) (p : String)
    (h : p ≠ q) : ∀ store : RemoteStore,
    lookupRemote (store.map fun kv => if kv.1 = q then (q, f) else kv) p
      = lookupRemote store p := by
  intro store
  induction store with
  | nil => rfl
  | cons kv rest ih =>
      simp only [List.map_cons]
      by_cases hkv : kv.1 = q
      · rw [if_pos hkv]
        unfold lookupRemote
        rw [List.find?_cons_of_neg _ (by simp; exact fun hh => h hh.symm)]
        rw [List.find?_cons_of_neg _
            (by simp [hkv]; exact fun hh => h hh.symm)]
        exact ih
      · rw [if_neg hkv]
        by_cases hp : kv.1 = p
        · unfold lookupRemote
          rw [List.find?_cons_of_pos _ (by simpa using hp)]
          rw [List.find?_cons_of_pos _ (by simpa using hp)]
        · unfold lookupRemote
          rw [List.find?_cons_of_neg _ (by simpa using hp)]
          rw [List.find?_cons_of_neg _ (by simpa using hp)]
          exact ih

theorem lookupRemote_map_eq (q : String) (f : RemoteFile) :
    ∀ store : RemoteStore, store.any (·.1 = q) = true →
    lookupRemote (store.map fun kv => if kv.1 = q then (q, f) else kv) q
      = some f := by
  intro store
  induction store with
  | nil => simp
  | cons kv rest ih =>
      intro hany
      simp only [List.map_cons]
      by_cases hkv : kv.1 = q
      · rw [if_pos hkv]
        unfold lookupRemote
        rw [List.find?_cons_of_pos _ (by simp)]
        rfl
      · rw [if_neg hkv]
        have hany' : rest.any (·.1 = q) = true := by
          simp only [List.any_cons, Bool.or_eq_true] at hany
          rcases hany with hh | hh
          · exact absurd (by simpa using hh) hkv
          · exact hh
        unfold lookupRemote
        rw [List.find?_cons_of_neg _ (by simpa using hkv)]
        exact ih hany'

theorem lookupRemote_append_eq (q : String) (f : RemoteFile) :
    ∀ store : RemoteStore, store.any (·.1 = q) = false →
    lookupRemote (store ++ [(q, f)]) q = some f := by
  intro store
  induction store with
  | nil =>
      intro _
      unfold lookupRemote
      simp only [List.nil_append]
      rw [List.find?_cons_of_pos _ (by simp)]
      rfl
  | cons kv rest ih =>
      intro hany
      simp only [List.any_cons, Bool.or_eq_false_iff] at hany
      rw [List.cons_append]
      unfold lookupRemote
      rw [List.find?_cons_of_neg _ (by simpa using hany.1)]
      exact ih hany.2

theorem lookupRemote_append_ne (q : String) (f : RemoteFile) (p : String)
    (h : p ≠ q) : ∀ store : RemoteStore,
    lookupRemote (store ++ [(q, f)]) p = lookupRemote store p := by
  intro store
  induction store with
  | nil =>
      unfold lookupRemote
      simp only [List.nil_append]
      rw [List.find?_cons_of_neg _
          (by simp only [decide_eq_true_eq]; exact fun hh => h hh.symm)]
  | cons kv rest ih =>
      rw [List.cons_append]
      by_cases hp : kv.1 = p
      · unfold lookupRemote
        rw [List.find?_cons_of_pos _ (by simpa using hp)]
        rw [List.find?_cons_of_pos _ (by simpa using hp)]
      · unfold lookupRemote
        rw [List.find?_cons_of_neg _ (by simpa using hp)]
        rw [List.find?_cons_of_neg _ (by simpa using hp)]
        exact ih

theorem lookupRemote_setRemote (store : RemoteStore) (q : String)
    (f : RemoteFile) (p : String) :
    lookupRemote (setRemote store q f) p =
      if p = q then some f else lookupRemote store p := by
  unfold setRemote
  split
  · next hany =>
      by_cases hpq : p = q
      · subst hpq
        rw [if_pos rfl]
        exact lookupRemote_map_eq p f store hany
      · rw [if_neg hpq]
        exact lookupRemote_map_ne q f p hpq store
  · next hany =>
      by_cases hpq : p = q
      · subst hpq
        rw [if_pos rfl]
        exact lookupRemote_append_eq p f store (Bool.eq_false_iff.mpr hany)
      · rw [if_neg hpq]
        exact lookupRemote_append_ne q f p hpq store

theorem restoreFileStep_other (env : RemoteEnv) (file : FileState)
    (store : RemoteStore) (p : String) (h : file.path ≠ p) :
    lookupRemote (restoreFileStep env file store).1 p = lookupRemote store p := by
  unfold restoreFileStep
  split
  · simp only []
    split
    · rfl
    · simp only [lookupRemote_setRemote]
      rw [if_neg (fun hh => h hh.symm)]
  · simp only []
    split
    · split
      · split
        · rfl
        · simp only [lookupRemote_setRemote]
          rw [if_neg (fun hh => h hh.symm)]
      · rfl
    · split
      · rfl
      · simp only [lookupRemote_setRemote]
        rw [if_neg (fun hh => h hh.symm)]

theorem restore_preserves (env : RemoteEnv) (p : String) :
    ∀ (files : List FileState) (store : RemoteStore),
      (∀ g ∈ files, g.path ≠ p) →
      lookupRemote (restoreRepositoryState env files store).1 p
        = lookupRemote store p := by
  intro files
  induction files with
  | nil => intro store _; rfl
  | cons file rest ih =>
      intro store h
      rcases hstep : restoreFileStep env file store with ⟨s1, ops1⟩
      rcases hrec : restoreRepositoryState env rest s1 with ⟨s2, ops2⟩
      have hunfold : restoreRepositoryState env (file :: rest) store
          = (s2, ops1 ++ ops2) := by
        simp only [restoreRepositoryState, hstep, hrec]
      rw [hunfold]
      have h1 : lookupRemote s1 p = lookupRemote store p := by
        have hx := restoreFileStep_other env file store p (h file (by simp))
        rw [hstep] at hx
        exact hx
      have h2 : lookupRemote s2 p = lookupRemote s1 p := by
        have hx := ih s1 (fun g hg => h g (by simp [hg]))
        rw [hrec] at hx
        exact hx
      show lookupRemote s2 p = lookupRemote store p
      rw [h2, h1]

theorem restore_append (env : RemoteEnv) :
    ∀ (pre rest : List FileState) (store : RemoteStore),
      restoreRepositoryState env (pre ++ rest) store
        = ((restoreRepositoryState env rest
              (restoreRepositoryState env pre store).1).1,
           (restoreRepositoryState env pre store).2
             ++ (restoreRepositoryState env rest
                  (restoreRepositoryState env pre store).1).2) := by
  intro pre
  induction pre with
  | nil =>
      intro rest store
      simp only [List.nil_append, restoreRepositoryState]
  | cons file pre' ih =>
      intro rest store
      rcases hstep : restoreFileStep env file store with ⟨s1, ops1⟩
      rcases hrecL : restoreRepositoryState env (pre' ++ rest) s1 with ⟨sL, opsL⟩
      have hL : restoreRepositoryState env ((file :: pre') ++ rest) store
          = (sL, ops1 ++ opsL) := by
        simp only [List.cons_append, restoreRepositoryState, List.append_eq,
          hstep, hrecL]
      rcases hrecP : restoreRepositoryState env pre' s1 with ⟨sP, opsP⟩
      have hP : restoreRepositoryState env (file :: pre') store
          = (sP, ops1 ++ opsP) := by
        simp only [restoreRepositoryState, hstep, hrecP]
      rw [hL, hP]
      have hx := ih rest s1
      rw [hrecL, hrecP] at hx
      simp only [] at hx ⊢
      injection hx with hx1 hx2
      rw [hx1, hx2, List.append_assoc]

/-- C5: with an open transaction whose first checkpoint records primary
file `f` with revision `r1` and content `c1` (and no other record for
`f`), `rollback()` succeeds, restores from the first checkpoint only,
never mutates the secondary store, and clears the transaction; if `f`
currently exists remotely with revision `r2 ≠ r1` it is overwritten with
`c1` via `updateFile` under the current revision `r2`, and if `f` no
longer exists it is recreated with `c1`.  The failure oracles for every
other path are arbitrary, so one file's restoration failure never blocks
`f`'s restoration. -/
theorem rollback_firstCheckpoint (env : RemoteEnv) (store : RemoteStore)
    (wikiStore : List PageState) (s : TMState) (t : SyncTransaction)
    (cp : Checkpoint) (pre post : List FileState) (f r1 c1 : String)
    (hs : s.transaction = some t)
    (hcp : t.checkpoints.head? = some cp)
    (hsplit : cp.repoState = pre ++ { path := f, sha := r1, content := c1 } :: post)
    (hpre : ∀ g ∈ pre, g.path ≠ f)
    (hpost : ∀ g ∈ post, g.path ≠ f)
    (hget : env.getFails f = false) :
    (TransactionManager.rollback env store wikiStore s).result = Except.ok () ∧
    (TransactionManager.rollback env store wikiStore s).wikiStore = wikiStore ∧
    (TransactionManager.rollback env store wikiStore s).tm = TMState.init ∧
    (∀ c2 r2, lookupRemote store f = some { content := c2, sha := r2 } →
      r2 ≠ r1 → env.updateFails f = false →
      lookupRemote (TransactionManager.rollback env store wikiStore s).store f
          = some { content := c1, sha := env.newSha f c1 } ∧
      RemoteOp.update f c1 r2
        ∈ (TransactionManager.rollback env store wikiStore s).remoteOps) ∧
    (lookupRemote store f = none → env.createFails f = false →
      lookupRemote (TransactionManager.rollback env store wikiStore s).store f
          = some { content := c1, sha := env.newSha f c1 } ∧
      RemoteOp.create f c1
        ∈ (TransactionManager.rollback env store wikiStore s).remoteOps) := by
  rcases hres : restoreRepositoryState env cp.repoState store with ⟨st, ops⟩
  have hrb : TransactionManager.rollback env store wikiStore s =
      { result := Except.ok (), tm := { transaction := none }
        store := st, remoteOps := ops, wikiStore := wikiStore } := by
    simp only [TransactionManager.rollback, hs, hcp, hres]
  refine ⟨by rw [hrb], by rw [hrb], by rw [hrb]; rfl, ?_, ?_⟩
  · intro c2 r2 hlook hr hupd
    rcases hpreR : restoreRepositoryState env pre store with ⟨sPre, opsPre⟩
    have hS1 : lookupRemote sPre f = some { content := c2, sha := r2 } := by
      have hx := restore_preserves env f pre store hpre
      rw [hpreR] at hx
      simp only [] at hx
      rw [hx, hlook]
    have hstep : restoreFileStep env { path := f, sha := r1, content := c1 } sPre
        = (setRemote sPre f { content := c1, sha := env.newSha f c1 },
           [RemoteOp.update f c1 r2]) := by
      unfold restoreFileStep
      simp only [hget, Bool.false_eq_true, if_false, hS1]
      rw [if_pos (by simpa using hr)]
      rw [if_neg (by simp [hupd])]
    rcases hpostR : restoreRepositoryState env post
        (setRemote sPre f { content := c1, sha := env.newSha f c1 }) with ⟨s2, ops2⟩
    have hmid : restoreRepositoryState env
        ({ path := f, sha := r1, content := c1 } :: post) sPre
        = (s2, [RemoteOp.update f c1 r2] ++ ops2) := by
      simp only [restoreRepositoryState, hstep, hpostR]
    have hsplit2 := restore_append env pre
      ({ path := f, sha := r1, content := c1 } :: post) store
    rw [← hsplit, hres, hpreR] at hsplit2
    simp only [] at hsplit2
    rw [hmid] at hsplit2
    simp only [] at hsplit2
    injection hsplit2 with h1 h2
    constructor
    · rw [hrb]
      simp only []
      rw [h1]
      have hx := restore_preserves env f post
        (setRemote sPre f { content := c1, sha := env.newSha f c1 }) hpost
      rw [hpostR] at hx
      simp only [] at hx
      rw [hx, lookupRemote_setRemote, if_pos rfl]
    · rw [hrb]
      simp only []
      rw [h2]
      simp
  · intro hlook hcreate
    rcases hpreR : restoreRepositoryState env pre store with ⟨sPre, opsPre⟩
    have hS1 : lookupRemote sPre f = none := by
      have hx := restore_preserves env f pre store hpre
      rw [hpreR] at hx
      simp only [] at hx
      rw [hx, hlook]
    have hstep : restoreFileStep env { path := f, sha := r1, content := c1 } sPre
        = (setRemote sPre f { content := c1, sha := env.newSha f c1 },
           [RemoteOp.create f c1]) := by
      unfold restoreFileStep
      simp only [hget, Bool.false_eq_true, if_false, hS1]
      rw [if_neg (by simp [hcreate])]
    rcases hpostR : restoreRepositoryState env post
        (setRemote sPre f { content := c1, sha := env.newSha f c1 }) with ⟨s2, ops2⟩
    have hmid : restoreRepositoryState env
        ({ path := f, sha := r1, content := c1 } :: post) sPre
        = (s2, [RemoteOp.create f c1] ++ ops2) := by
      simp only [restoreRepositoryState, hstep, hpostR]
    have hsplit2 := restore_append env pre
      ({ path := f, sha := r1, content := c1 } :: post) store
    rw [← hsplit, hres, hpreR] at hsplit2
    simp only [] at hsplit2
    rw [hmid] at hsplit2
    simp only [] at hsplit2
    injection hsplit2 with h1 h2
    constructor
    · rw [hrb]
      simp only []
      rw [h1]
      have hx := restore_preserves env f post
        (setRemote sPre f { content := c1, sha := env.newSha f c1 }) hpost
      rw [hpostR] at hx
      simp only [] at hx
      rw [hx, lookupRemote_setRemote, if_pos rfl]
    · rw [hrb]
      simp only []
      rw [h2]
      simp

/-- the transaction state the C5 witness rolls back -/
def witnessTMState : TMState :=
  { transaction := some
      { id := "tx", operations := [], status := .pending
        checkpoints :=
          [{ repoState := [{ path := "docs/a.md", sha := "r1", content := "c1" }]
             wikiState := [] }] } }

/-- C5, witness: the update case at a one-file checkpoint, over a remote
store holding `f` at a differing revision. -/
theorem rollback_firstCheckpoint_witness :
    lookupRemote
        (TransactionManager.rollback benignRemote
          [("docs/a.md", { content := "old", sha := "r2" })] []
          witnessTMState).store "docs/a.md"
      = some { content := "c1", sha := "sha-new" } ∧
    RemoteOp.update "docs/a.md" "c1" "r2"
      ∈ (TransactionManager.rollback benignRemote
          [("docs/a.md", { content := "old", sha := "r2" })] []
          witnessTMState).remoteOps :=
  (rollback_firstCheckpoint benignRemote
      [("docs/a.md", { content := "old", sha := "r2" })] [] witnessTMState
      _ _ [] [] "docs/a.md" "r1" "c1"
      rfl rfl rfl (by simp) (by simp) rfl).2.2.2.1
    "old" "r2" rfl (by decide) rfl

/-! ## C1: the error path of sync() -/

theorem rollback_clears_tm (env : RemoteEnv) (store : RemoteStore)
    (ws : List PageState) (tm : TMState) (hopen : tm.transaction.isSome = true) :
    (TransactionManager.rollback env store ws tm).tm = TMState.init := by
  obtain ⟨t, ht⟩ := Option.isSome_iff_exists.mp hopen
  rcases hcp : t.checkpoints.head? with _ | cp
  · simp only [TransactionManager.rollback, ht, hcp]
    rfl
  · rcases hres : restoreRepositoryState env cp.repoState store with ⟨st, ops⟩
    simp only [TransactionManager.rollback, ht, hcp, hres]
    rfl

theorem syncCatch_spec (env : SyncEnv) (e : ErrVal) (result : SyncResultM)
    (tm : TMState) (hopen : tm.transaction.isSome = true)
    (herr : result.errors.all ErrEntry.isChangeErr = true) :
    (syncCatch env e result tm).ret = Except.error e ∧
    (syncCatch env e result tm).resultRec.success = false ∧
    (syncCatch env e result tm).resultRec.errors.getLast?
        = some (.phaseErr "sync" (errToMessage e)) ∧
    ((syncCatch env e result tm).resultRec.errors.dropLast).all
        ErrEntry.isChangeErr = true ∧
    (syncCatch env e result tm).rollbackAttempted = true ∧
    (syncCatch env e result tm).tm = TMState.init := by
  unfold syncCatch
  rw [if_pos (show TransactionManager.isInTransaction tm = true from hopen)]
  refine ⟨rfl, rfl, ?_, ?_, rfl, ?_⟩
  · simp
  · simpa using herr
  · exact rollback_clears_tm env.remote env.remoteStore [] tm hopen

theorem applyLoop_spec (env : SyncEnv) :
    ∀ (changes : List Change) (tm : TMState) (fh : PartialFailureHandler)
      (result : SyncResultM),
      tm.transaction.isSome = true →
      result.errors.all ErrEntry.isChangeErr = true →
      result.success = true →
      (match applyLoop env changes tm fh result with
       | Except.ok (r, tm', _) =>
           r.errors.all ErrEntry.isChangeErr = true ∧ r.success = true ∧
           tm'.transaction.isSome = true
       | Except.error (_, r, tmAt) =>
           r.errors.all ErrEntry.isChangeErr = true ∧ r.success = true ∧
           tmAt.transaction.isSome = true) := by
  intro changes
  induction changes with
  | nil =>
      intro tm fh result hopen herr hsucc
      exact ⟨herr, hsucc, hopen⟩
  | cons change rest ih =>
      intro tm fh result hopen herr hsucc
      obtain ⟨t, ht⟩ := Option.isSome_iff_exists.mp hopen
      rcases happ : env.applyRes change with _ | e
      · simp only [applyLoop, happ, TransactionManager.recordOperation, ht]
        exact ih _ _ _ rfl herr hsucc
      · simp only [applyLoop, happ]
        rcases hrf : PartialFailureHandler.recordFailure
            { type := change.type, path := change.filePath, content := change.content }
            e fh with ⟨r, fh'⟩
        simp only [hrf]
        have herr' : (result.errors ++
            [ErrEntry.changeErr change (ErrorHandler.classify e).message]).all
              ErrEntry.isChangeErr = true := by
          simp [List.all_append, herr, ErrEntry.isChangeErr]
        rcases r with m | u
        · dsimp only
          exact ⟨herr', hsucc, hopen⟩
        · dsimp only
          by_cases hft :
            (((ErrorHandler.classify e).fatal || !fh'.shouldContinue) = true)
          · rw [if_pos hft]
            exact ⟨herr', hsucc, hopen⟩
          · rw [if_neg hft]
            exact ih tm fh'
              { result with errors := result.errors ++
                  [ErrEntry.changeErr change (ErrorHandler.classify e).message] }
              hopen herr' hsucc

/-- C1, counterexample: when the clone step rejects, `sync()` re-throws
the original error, so the caller receives the error — not the Run Result
(which was mutated to `success = false` but never returned).  The claim
that the Run Result is surfaced to the caller is false of the code. -/
theorem sync_counterexample :
    (syncModel "tx" cloneFailEnv).ret
        = Except.error (ErrVal.mkError "clone failed") ∧
    ¬ ∃ r : SyncResultM, (syncModel "tx" cloneFailEnv).ret = Except.ok r := by
  constructor
  · rfl
  · rintro ⟨r, hr⟩
    rw [show (syncModel "tx" cloneFailEnv).ret
        = Except.error (ErrVal.mkError "clone failed") from rfl] at hr
    exact Except.noConfusion hr

/-- C1, amended: whenever a step between beginning the run and committing
throws, `sync()` mutates its local Run Result to `success = false`,
appending the phase-level error after the accumulated per-change errors,
attempts a rollback (a transaction is always still open at the failure
points) which clears the transaction, and re-throws the **original**
error to the caller — a rollback failure is only logged and never
replaces it; the mutated Run Result itself is not returned.  On the happy
path the returned result has `success = true` and no rollback happens. -/
theorem sync_error_path (newId : String) (env : SyncEnv) :
    (∀ r, (syncModel newId env).ret = Except.ok r →
        r.success = true ∧ (syncModel newId env).rollbackAttempted = false) ∧
    (∀ e, (syncModel newId env).ret = Except.error e →
        (syncModel newId env).resultRec.success = false ∧
        (syncModel newId env).resultRec.errors.getLast?
            = some (.phaseErr "sync" (errToMessage e)) ∧
        ((syncModel newId env).resultRec.errors.dropLast).all
            ErrEntry.isChangeErr = true ∧
        (syncModel newId env).rollbackAttempted = true ∧
        (syncModel newId env).tm = TMState.init) := by
  have main : (∃ rF : SyncResultM, syncModel newId env =
        { ret := Except.ok rF, resultRec := rF, tm := TMState.init,
          rollbackAttempted := false, rollbackFailed := false } ∧
        rF.success = true) ∨
      (∃ e0 res0 tm0, syncModel newId env = syncCatch env e0 res0 tm0 ∧
        tm0.transaction.isSome = true ∧
        res0.errors.all ErrEntry.isChangeErr = true) := by
    unfold syncModel
    simp only [TransactionManager.beginTransaction]
    rcases hclone : env.cloneRes with ecl | ucl
    · simp only [hclone]
      exact Or.inr ⟨ecl, _, _, rfl, rfl, rfl⟩
    · simp only [hclone]
      rcases hrepo : env.repoFilesRes with erp | repoFiles
      · simp only [hrepo]
        exact Or.inr ⟨erp, _, _, rfl, rfl, rfl⟩
      · simp only [hrepo]
        rcases hwiki : env.wikiFilesRes with ewk | wikiFiles
        · simp only [hwiki]
          exact Or.inr ⟨ewk, _, _, rfl, rfl, rfl⟩
        · simp only [hwiki, TransactionManager.createCheckpoint]
          have hspec := applyLoop_spec env
            (detectChanges env.cfg env.fsExists env.cwd repoFiles wikiFiles)
            { transaction := some
                { id := newId, operations := [], status := .pending,
                  checkpoints := [] ++ [{ repoState := currentRepoState repoFiles,
                                          wikiState := currentWikiState wikiFiles }] } }
            (PartialFailureHandler.mk' true 10) SyncResultM.init
            rfl rfl rfl
          rcases hloop : applyLoop env
              (detectChanges env.cfg env.fsExists env.cwd repoFiles wikiFiles)
              { transaction := some
                  { id := newId, operations := [], status := .pending,
                    checkpoints := [] ++ [{ repoState := currentRepoState repoFiles,
                                            wikiState := currentWikiState wikiFiles }] } }
              (PartialFailureHandler.mk' true 10) SyncResultM.init
            with ⟨eL, resL, tmL⟩ | ⟨res1, tm3, fhL⟩
          · rw [hloop] at hspec
            exact Or.inr ⟨eL, _, _, rfl, hspec.2.2, hspec.1⟩
          · rw [hloop] at hspec
            obtain ⟨t3, ht3⟩ := Option.isSome_iff_exists.mp hspec.2.2
            dsimp only
            rcases hpush : (if res1.changesApplied > 0 then env.pushRes
                else Except.ok ()) with eps | ups
            · exact Or.inr ⟨eps, _, _, rfl, by simpa using hspec.2.2, hspec.1⟩
            · simp only [TransactionManager.commit, ht3]
              exact Or.inl ⟨_, rfl, hspec.2.1⟩
  rcases main with ⟨rF, hm, hsucc⟩ | ⟨e0, res0, tm0, hm, hopen, herr⟩
  · constructor
    · intro r hr
      rw [hm] at hr
      refine ⟨?_, by rw [hm]⟩
      injection hr with h
      rw [← h]
      exact hsucc
    · intro e he
      rw [hm] at he
      exact Except.noConfusion he
  · have spec := syncCatch_spec env e0 res0 tm0 hopen herr
    constructor
    · intro r hr
      rw [hm, spec.1] at hr
      exact Except.noConfusion hr
    · intro e he
      rw [hm, spec.1] at he
      injection he with h
      subst h
      rw [hm]
      exact ⟨spec.2.1, spec.2.2.1, spec.2.2.2.1, spec.2.2.2.2.1, spec.2.2.2.2.2⟩

/-- C1, witness: the amended theorem's error branch at the clone-failure
environment. -/
theorem sync_error_path_witness :
    (syncModel "tx" cloneFailEnv).resultRec.success = false ∧
    (syncModel "tx" cloneFailEnv).resultRec.errors.getLast?
        = some (.phaseErr "sync" (errToMessage (ErrVal.mkError "clone failed"))) ∧
    ((syncModel "tx" cloneFailEnv).resultRec.errors.dropLast).all
        ErrEntry.isChangeErr = true ∧
    (syncModel "tx" cloneFailEnv).rollbackAttempted = true ∧
    (syncModel "tx" cloneFailEnv).tm = TMState.init :=
  (sync_error_path "tx" cloneFailEnv).2 (ErrVal.mkError "clone failed") rfl

end WikiSync
